import Mathlib

/-!
Verification development for the SCI segmented virtual heap manager
(engines/sci/engine/seg_manager.cpp).

The C++ source is embedded shallowly:

* machine integers become Nat or Int with explicit masking (mod 2 ^ 16 for
  the 16-bit fields of a tagged pointer, mod 2 ^ 32 with a sign split for
  the cast of a size_t to int);
* the byte buffers and cell buffers behind a segment become total functions
  from Nat, paired with a length; writing beyond the length is therefore
  observable (it changes the function outside the segment bound), exactly
  like the corresponding out-of-bounds pointer write in the source;
* the mutable SegManager object becomes a state record passed and returned
  explicitly;
* functions of the source that can abort fatally (error calls) or recurse
  return a RunResult; unbounded recursion is made total with an explicit
  fuel argument, and exhausting every fuel bound is the embedding of a
  non-terminating (stack-overflowing) run.

Types and helpers of the engine that are declared outside the embedded file
(reg_t, SegmentRef, the per-kind dereference methods of segments, the
Script record with its locker counter) are modelled from the specification
of the component; each such definition carries a doc comment saying so.
-/

namespace SciSeg

/-- Modelled from the spec: the tagged pointer reg_t, a pair of a 16-bit
segment identifier and a 16-bit offset (vm_types.h is not part of the
embedded sources). Fields are kept as Nat; constructors mask to 16 bits. -/
structure Reg where
  segment : Nat
  offset : Nat
deriving Repr, DecidableEq

/-- make_reg: builds a tagged pointer, masking both halves to 16 bits. -/
def make_reg (seg off : Nat) : Reg :=
  { segment := seg % 65536, offset := off % 65536 }

/-- NULL_REG, the null tagged pointer. -/
def NULL_REG : Reg := { segment := 0, offset := 0 }

/-- Modelled from the spec: reg_t::isNull, true exactly for the null
pointer (segment 0, offset 0). -/
def Reg.isNull (r : Reg) : Prop := r.segment = 0 ∧ r.offset = 0

instance (r : Reg) : Decidable r.isNull := by
  unfold Reg.isNull; infer_instance

/-- reg_t::incOffset: adds a signed amount to the 16-bit offset, wrapping
mod 2 ^ 16 as the uint16 store does. -/
def Reg.incOffset (r : Reg) (i : Int) : Reg :=
  { r with offset := (((r.offset : Int) + i) % 65536).toNat }

/-- The conversion of a size_t value to a 32-bit signed int, as performed
by the cast in the memcpy bound checks of the source. -/
def intOfSizeT (n : Nat) : Int :=
  if n % 4294967296 < 2147483648 then ((n % 4294967296 : Nat) : Int)
  else ((n % 4294967296 : Nat) : Int) - 4294967296

/-- Sign reinterpretation of a 16-bit value as int16 (the superclass field
read during the SCI0 uninstantiation walk). -/
def toInt16 (v : Nat) : Int :=
  if v % 65536 < 32768 then ((v % 65536 : Nat) : Int)
  else ((v % 65536 : Nat) : Int) - 65536

/-- Point update of a buffer function. -/
def updFn (f : Nat → Nat) (i v : Nat) : Nat → Nat :=
  fun j => if j = i then v else f j

/-- Point update of a cell buffer function. -/
def updCell (f : Nat → Reg) (i : Nat) (v : Reg) : Nat → Reg :=
  fun j => if j = i then v else f j

/-- A byte list viewed as a zero-terminated C buffer: entries of the list
in place, zero beyond its length. -/
def ofBytes (l : List Nat) : Nat → Nat :=
  fun i => l.getD i 0

/-- READ_SCI11ENDIAN_UINT16 on a byte buffer (little-endian layout). -/
def read16 (buf : Nat → Nat) (o : Nat) : Nat :=
  buf o % 256 + 256 * (buf (o + 1) % 256)

/-!  SciVersion: the version enumeration of sci.h is not part of the
embedded sources; it is modelled from the spec as naturals in the
enumeration order, which is all the source uses (comparisons). -/

/-- Modelled from the spec: version enumeration value. -/
def SCI_VERSION_0_EARLY : Nat := 0

/-- Modelled from the spec: version enumeration value. -/
def SCI_VERSION_0_LATE : Nat := 1

/-- Modelled from the spec: version enumeration value. -/
def SCI_VERSION_1_1 : Nat := 7

/-- Modelled from the spec: version enumeration value. -/
def SCI_VERSION_2_1_LATE : Nat := 11

/-- Modelled from the spec: version enumeration value (the addressing
generation whose identifiers carry extra high bits). -/
def SCI_VERSION_3 : Nat := 12

/-- Modelled from the spec: the object-type tag of an object record in a
script resource (script.h is not part of the embedded sources). -/
def SCI_OBJ_OBJECT : Nat := 1

/-- Modelled from the spec: the object-type tag of a class record in a
script resource. -/
def SCI_OBJ_CLASS : Nat := 6

/-- Modelled from the spec: the per-script state of a Script segment:
script number, raw bytecode buffer with its length, the locker reference
count (a non-negative integer), the marked-deleted flag and the owning
locals segment identifier (script.h / script.cpp are not part of the
embedded sources; the fields and their discipline follow the data model
of the spec). -/
structure ScriptData where
  scriptNumber : Int
  bufLen : Nat
  buf : Nat → Nat
  lockers : Nat
  markedAsDeleted : Bool
  localsSegment : Nat

/-- Modelled from the spec: a freshly constructed Script object, before
load populates it. -/
def ScriptData.new : ScriptData :=
  { scriptNumber := 0, bufLen := 0, buf := fun _ => 0, lockers := 0,
    markedAsDeleted := false, localsSegment := 0 }

/-- Script::incrementLockers. -/
def ScriptData.incrementLockers (sc : ScriptData) : ScriptData :=
  { sc with lockers := sc.lockers + 1 }

/-- Modelled from the spec: Script::decrementLockers; the locker count is
a non-negative reference count, so the decrement saturates at zero. -/
def ScriptData.decrementLockers (sc : ScriptData) : ScriptData :=
  { sc with lockers := sc.lockers - 1 }

/-- Script::markDeleted. -/
def ScriptData.markDeleted (sc : ScriptData) : ScriptData :=
  { sc with markedAsDeleted := true }

/-- Modelled from the spec: Script::freeScript keeping the segment: the
buffer is released and the deleted mark reset, ready for a reload. -/
def ScriptData.freeScriptKeep (sc : ScriptData) : ScriptData :=
  { sc with bufLen := 0, buf := fun _ => 0, markedAsDeleted := false }

/-- A segment of the heap: a raw dynamic byte buffer, a cell-addressed
buffer of tagged values (locals, stack and the like), or a script. The
three kinds cover the two addressability classes of the dereference
protocol plus the script lifecycle segments the claims are about. -/
inductive SegmentObj where
  | dynMem (len : Nat) (bufData : Nat → Nat)
  | cellSeg (len : Nat) (cells : Nat → Reg)
  | script (scr : ScriptData)

/-- Segment type tags (values as in the source's SegmentType enum). -/
def SEG_TYPE_INVALID : Nat := 0

/-- Segment type tag of scripts. -/
def SEG_TYPE_SCRIPT : Nat := 1

/-- Segment type tag of cell-addressed segments (locals in the source). -/
def SEG_TYPE_LOCALS : Nat := 3

/-- Segment type tag of dynamic memory segments. -/
def SEG_TYPE_DYNMEM : Nat := 9

/-- SegmentObj::getType. -/
def SegmentObj.getType : SegmentObj → Nat
  | .dynMem _ _ => SEG_TYPE_DYNMEM
  | .cellSeg _ _ => SEG_TYPE_LOCALS
  | .script _ => SEG_TYPE_SCRIPT

/-- Modelled from the spec: SegmentRef, the result of a dereference: a
validity flag (an invalid view carries no pointer), the raw/cell
discriminator, the skip-byte flag for odd byte offsets into a cell store,
the maxSize bound in bytes, and the location of the underlying storage
(heap slot and starting unit index) standing for the C pointer. -/
structure SegmentRef where
  valid : Bool
  isRaw : Bool
  skipByte : Bool
  maxSize : Nat
  seg : Nat
  base : Nat
deriving Repr, DecidableEq

/-- The invalid SegmentRef: carries no pointer. -/
def invalidRef : SegmentRef :=
  { valid := false, isRaw := false, skipByte := false, maxSize := 0,
    seg := 0, base := 0 }

/-- Modelled from the spec: the per-kind dereference of a segment
(segment.cpp is not part of the embedded sources). Byte-addressable
segments yield a raw view with maxSize the bytes remaining; cell-addressed
segments yield a non-raw view of the cells from the requested position,
with skipByte set on an odd byte offset; an out-of-range offset yields the
invalid view. maxSize is counted in bytes for both kinds, matching how the
embedded source consumes it (derefRegPtr passes 2 * entries against it and
getString walks it byte by byte). -/
def SegmentObj.deref (so : SegmentObj) (segId : Nat) (p : Reg) : SegmentRef :=
  match so with
  | .dynMem len _ =>
      if p.offset < len then
        { valid := true, isRaw := true, skipByte := false,
          maxSize := len - p.offset, seg := segId, base := p.offset }
      else invalidRef
  | .script sc =>
      if p.offset < sc.bufLen then
        { valid := true, isRaw := true, skipByte := false,
          maxSize := sc.bufLen - p.offset, seg := segId, base := p.offset }
      else invalidRef
  | .cellSeg len _ =>
      if p.offset < 2 * len then
        { valid := true, isRaw := false, skipByte := p.offset % 2 == 1,
          maxSize := 2 * len - p.offset, seg := segId, base := p.offset / 2 }
      else invalidRef

/-- An entry of the class table: owning script number and lazily resolved
address. -/
structure ClassEntry where
  script : Int
  reg : Reg

/-- The SegManager state: the segment directory (slot 0 is the permanent
empty sentinel), the script-number to segment-id map, the class table, the
detected engine version, and the resource collaborator (script number to
bytecode bytes), which the spec treats as an external interface. -/
structure SegManager where
  heap : List (Option SegmentObj)
  scriptSegMap : List (Int × Nat)
  classTable : List ClassEntry
  version : Nat
  resources : Int → List Nat

/-- Slot access in the segment directory (empty beyond the end). -/
def SegManager.heapAt (s : SegManager) (i : Nat) : Option SegmentObj :=
  s.heap.getD i none

/-- SegManager::getActualSegment: in the generation whose identifiers
encode extra high bits (after SCI_VERSION_2_1_LATE) the identifier is
masked to its low 14 bits, otherwise used unmodified. -/
def SegManager.getActualSegment (s : SegManager) (seg : Nat) : Nat :=
  if s.version ≤ SCI_VERSION_2_1_LATE then seg else seg % 16384

/-- SegManager::getSegmentObj: resolves through the actual segment and
returns the slot's segment, or none when out of range or empty. -/
def SegManager.getSegmentObj (s : SegManager) (seg : Nat) : Option SegmentObj :=
  let actualSegment := s.getActualSegment seg
  if actualSegment < 1 ∨ s.heap.length ≤ actualSegment then none
  else s.heapAt actualSegment

/-- SegManager::getSegmentType: the type tag at the actual slot, or the
invalid tag. -/
def SegManager.getSegmentType (s : SegManager) (seg : Nat) : Nat :=
  match s.getSegmentObj seg with
  | none => SEG_TYPE_INVALID
  | some mobj => mobj.getType

/-- SegManager::getSegment (typed lookup): the slot's segment when its
type tag matches, otherwise none. -/
def SegManager.getSegmentTyped (s : SegManager) (seg ty : Nat) : Option SegmentObj :=
  let actualSegment := s.getActualSegment seg
  if s.getSegmentType actualSegment = ty then s.heapAt (s.getActualSegment actualSegment)
  else none

/-- SegManager::getScriptIfLoaded: the script at the actual slot, or none
when out of range, empty or not a script. -/
def SegManager.getScriptIfLoaded (s : SegManager) (seg : Nat) : Option ScriptData :=
  let actualSegment := s.getActualSegment seg
  if actualSegment < 1 ∨ s.heap.length ≤ actualSegment then none
  else match s.heapAt actualSegment with
    | some (.script sc) => some sc
    | _ => none

/-- SegManager::getScript: like getScriptIfLoaded but every failure is a
fatal error, embedded as none. -/
def SegManager.getScriptM (s : SegManager) (seg : Nat) : Option ScriptData :=
  s.getScriptIfLoaded seg

/-- SegManager::dereference: returns the invalid view when the segment id
is 0, at or beyond the directory size, or an empty slot (note: without
masking through getActualSegment); otherwise delegates to the segment's
own resolution. -/
def SegManager.dereference (s : SegManager) (p : Reg) : SegmentRef :=
  if p.segment = 0 ∨ s.heap.length ≤ p.segment then invalidRef
  else
    match s.heapAt p.segment with
    | none => invalidRef
    | some mobj => mobj.deref p.segment p

/-- The loop of SegManager::findFreeSegment: scan upward from the given
identifier while slots are occupied; the fuel is the directory size, an
upper bound on the number of iterations. -/
def findFreeAux (heap : List (Option SegmentObj)) : Nat → Nat → Nat
  | 0, seg => seg
  | fuel + 1, seg =>
      if seg < heap.length ∧ (heap.getD seg none).isSome then
        findFreeAux heap fuel (seg + 1)
      else seg

/-- SegManager::findFreeSegment: the first empty slot at identifier 1 or
above (the directory size itself when every slot is occupied). -/
def SegManager.findFreeSegment (s : SegManager) : Nat :=
  findFreeAux s.heap s.heap.length 1

/-- SegManager::allocSegment: installs the segment at the first free
identifier, growing the directory by one slot when none is free; returns
the new state and the identifier. -/
def SegManager.allocSegment (s : SegManager) (mem : SegmentObj) : SegManager × Nat :=
  let id := s.findFreeSegment
  if s.heap.length ≤ id then
    ({ s with heap := s.heap ++ [some mem] }, id)
  else
    ({ s with heap := s.heap.set id (some mem) }, id)

/-- Outcome of an operation of the manager that can abort fatally or, in
the embedding, exhaust its recursion fuel (the image of a run that never
terminates). -/
inductive RunResult where
  | ok (s : SegManager)
  | fatal
  | noFuel
deriving Inhabited

/-- Sequencing on RunResult: continue from a normal state, propagate a
fatal abort or fuel exhaustion. -/
def RunResult.bindOk (r : RunResult) (f : SegManager → RunResult) : RunResult :=
  match r with
  | .ok s => f s
  | .fatal => .fatal
  | .noFuel => .noFuel

/-- Clearing a directory slot (the delete plus null assignment of
deallocate). -/
def SegManager.clearSlot (s : SegManager) (i : Nat) : SegManager :=
  { s with heap := s.heap.set i none }

/-- Removal of a script number from the script-number map. -/
def eraseKey (k : Int) (m : List (Int × Nat)) : List (Int × Nat) :=
  m.filter (fun e => e.1 ≠ k)

/-- SegManager::deallocate: resolves the identifier through the actual
segment mapping, aborts fatally on an out-of-range or empty slot, erases a
script from the script map and first deallocates its locals segment if
that is still present, then clears the slot. The fuel bounds the locals
recursion. -/
def SegManager.deallocate : Nat → SegManager → Nat → RunResult
  | 0, _, _ => .noFuel
  | fuel + 1, s, seg =>
      let actualSegment := s.getActualSegment seg
      if actualSegment < 1 ∨ s.heap.length ≤ actualSegment then .fatal
      else
        match s.heapAt actualSegment with
        | none => .fatal
        | some mobj =>
            match mobj with
            | .script scr =>
                let s1 := { s with scriptSegMap := eraseKey scr.scriptNumber s.scriptSegMap }
                if scr.localsSegment ≠ 0 ∧ (s1.heapAt scr.localsSegment).isSome then
                  (SegManager.deallocate fuel s1 scr.localsSegment).bindOk
                    (fun s2 => .ok (s2.clearSlot actualSegment))
                else .ok (s1.clearSlot actualSegment)
            | _ => .ok (s.clearSlot actualSegment)

/-- The cell stored at a unit index of a cell-addressed slot (the
dereferenced reg pointer). -/
def SegManager.cellAt (s : SegManager) (slot idx : Nat) : Reg :=
  match s.heapAt slot with
  | some (.cellSeg _ cells) => cells idx
  | _ => NULL_REG

/-- Replaces one cell of a cell-addressed slot. -/
def SegManager.setCellAt (s : SegManager) (slot idx : Nat) (v : Reg) : SegManager :=
  match s.heapAt slot with
  | some (.cellSeg len cells) =>
      { s with heap := s.heap.set slot (some (.cellSeg len (updCell cells idx v))) }
  | _ => s

/-- The byte buffer function behind a raw slot (dynamic memory or script
bytecode). -/
def SegManager.rawFnAt (s : SegManager) (slot : Nat) : Nat → Nat :=
  match s.heapAt slot with
  | some (.dynMem _ bufData) => bufData
  | some (.script sc) => sc.buf
  | _ => fun _ => 0

/-- Replaces the byte buffer function behind a raw slot. -/
def SegManager.setRawFnAt (s : SegManager) (slot : Nat) (f : Nat → Nat) : SegManager :=
  match s.heapAt slot with
  | some (.dynMem len _) =>
      { s with heap := s.heap.set slot (some (.dynMem len f)) }
  | some (.script sc) =>
      { s with heap := s.heap.set slot (some (.script { sc with buf := f })) }
  | _ => s

/-- getChar: reads the byte at a byte offset of a non-raw view, advancing
one byte when skipByte is set and picking the half of the 16-bit cell
value by the parity of the offset (little-endian host). -/
def SegManager.getChar (s : SegManager) (ref : SegmentRef) (offset : Nat) : Nat :=
  let off := if ref.skipByte then offset + 1 else offset
  let val := s.cellAt ref.seg (ref.base + off / 2)
  if off % 2 = 1 then val.offset % 65536 / 256 else val.offset % 256

/-- setChar: writes a byte at a byte offset of a non-raw view, zeroing the
segment half of the cell and replacing one half of its 16-bit value
(little-endian host). -/
def SegManager.setChar (s : SegManager) (ref : SegmentRef) (offset value : Nat) : SegManager :=
  let off := if ref.skipByte then offset + 1 else offset
  let idx := ref.base + off / 2
  let oldOff := (s.cellAt ref.seg idx).offset % 65536
  let newOff :=
    if off % 2 = 1 then oldOff % 256 + value % 256 * 256
    else oldOff / 256 * 256 + value % 256
  s.setCellAt ref.seg idx { segment := 0, offset := newOff }

/-- The byte at byte offset j of a view: the raw buffer byte for a raw
view, the getChar byte for a non-raw view (both as byte values). -/
def SegManager.readStrByte (s : SegManager) (r : SegmentRef) (j : Nat) : Nat :=
  if r.isRaw then s.rawFnAt r.seg (r.base + j) % 256 else s.getChar r j

/-- The remaining zero-fill loop of forwardCopy. -/
def zeroFill (dest : Nat → Nat) (d : Nat) : Nat → Nat → Nat
  | 0 => dest
  | k + 1 => zeroFill (updFn dest d 0) (d + 1) k

/-- The copy loop of forwardCopy: copies bytes forward, stopping after the
first zero byte in string mode, then zero-padding the remainder when
padding is on. -/
def forwardCopyLoop (stringMode zeroPad : Bool) (src : Nat → Nat) :
    Nat → (Nat → Nat) → Nat → Nat → Nat → Nat
  | 0, dest, _, _ => dest
  | n + 1, dest, d, si =>
      let b := src si
      let dest' := updFn dest d b
      if stringMode ∧ b = 0 then
        if zeroPad then zeroFill dest' (d + 1) n else dest'
      else forwardCopyLoop stringMode zeroPad src n dest' (d + 1) (si + 1)

/-- forwardCopy: zero-padding is enabled only in string mode with a length
other than the unbounded sentinel 0xFFFFFFFF. -/
def forwardCopy (stringMode : Bool) (dest src : Nat → Nat) (d si n : Nat) : Nat → Nat :=
  forwardCopyLoop stringMode (stringMode ∧ n ≠ 4294967295) src n dest d si

/-- The non-raw destination loop of strncpy from a C string: writes bytes
through setChar, stopping after the source's zero byte; the fuel is the
explicit length bound n. -/
def strncpyCellLoop (ref : SegmentRef) (src : Nat → Nat) :
    Nat → SegManager → Nat → SegManager
  | 0, s, _ => s
  | fuel + 1, s, i =>
      let s' := s.setChar ref i (src i)
      if src i = 0 then s' else strncpyCellLoop ref src fuel s' (i + 1)

/-- SegManager::strncpy from a host C string into a tagged destination:
no-op on an invalid destination; forwardCopy in string mode for a raw
destination; per-byte setChar with a trailing terminator (when it fits
under maxSize) for a non-raw destination. -/
def SegManager.strncpyChars (s : SegManager) (dest : Reg) (src : Nat → Nat) (n : Nat) :
    SegManager :=
  let dest_r := s.dereference dest
  if dest_r.valid = false then s
  else if dest_r.isRaw then
    s.setRawFnAt dest_r.seg (forwardCopy true (s.rawFnAt dest_r.seg) src dest_r.base 0 n)
  else
    let s1 := strncpyCellLoop dest_r src n s 0
    if n < dest_r.maxSize then s1.setChar dest_r n 0 else s1

/-- SegManager::strcpy_ from a host C string: strncpy with the unbounded
length sentinel. -/
def SegManager.strcpyChars (s : SegManager) (dest : Reg) (src : Nat → Nat) : SegManager :=
  s.strncpyChars dest src 4294967295

/-- The non-raw to raw loop of strncpy between tagged pointers: reads
bytes with getChar, writes them into the raw destination buffer, stopping
after a zero byte. -/
def rawFromCellLoop (s : SegManager) (src_r : SegmentRef) (base : Nat) :
    Nat → (Nat → Nat) → Nat → Nat → Nat
  | 0, destf, _ => destf
  | fuel + 1, destf, i =>
      let c := s.getChar src_r i
      let destf' := updFn destf (base + i) c
      if c = 0 then destf' else rawFromCellLoop s src_r base fuel destf' (i + 1)

/-- The non-raw to non-raw loop of strncpy between tagged pointers: copies
bytes cell store to cell store through the evolving state, stopping after
a zero byte. -/
def cellFromCellLoop (src_r dest_r : SegmentRef) :
    Nat → SegManager → Nat → SegManager
  | 0, s, _ => s
  | fuel + 1, s, i =>
      let c := s.getChar src_r i
      let s' := s.setChar dest_r i c
      if c = 0 then s' else cellFromCellLoop src_r dest_r fuel s' (i + 1)

/-- SegManager::strncpy between tagged pointers: a null source clears the
destination (writes the empty string) when n is positive; an unresolvable
source does the same; an invalid destination is a no-op; otherwise the
copy branches on the raw flags of both endpoints. -/
def SegManager.strncpyReg (s : SegManager) (dest src : Reg) (n : Nat) : SegManager :=
  if src.isNull then
    if 0 < n then s.strcpyChars dest (ofBytes []) else s
  else
    let dest_r := s.dereference dest
    let src_r := s.dereference src
    if src_r.valid = false then
      if 0 < n then s.strcpyChars dest (ofBytes []) else s
    else if dest_r.valid = false then s
    else if src_r.isRaw then
      s.strncpyChars dest (fun i => s.rawFnAt src_r.seg (src_r.base + i)) n
    else if dest_r.isRaw then
      s.setRawFnAt dest_r.seg (rawFromCellLoop s src_r dest_r.base n (s.rawFnAt dest_r.seg) 0)
    else cellFromCellLoop src_r dest_r n s 0

/-- SegManager::strcpy_ between tagged pointers. -/
def SegManager.strcpyReg (s : SegManager) (dest src : Reg) : SegManager :=
  s.strncpyReg dest src 4294967295

/-- Common::strnlen on a raw view: the index of the first zero byte, or
the whole bound when none occurs within it. -/
def strnlenAux (buf : Nat → Nat) (base : Nat) : Nat → Nat
  | 0 => 0
  | k + 1 => if buf base % 256 = 0 then 0 else strnlenAux buf (base + 1) k + 1

/-- The first so-many bytes of a raw view as a list of byte values. -/
def readRawList (buf : Nat → Nat) (base : Nat) : Nat → List Nat
  | 0 => []
  | k + 1 => buf base % 256 :: readRawList buf (base + 1) k

/-- The non-raw loop of getString: reads getChar bytes up to maxSize,
stopping at a zero byte. -/
def getStringCellLoop (s : SegManager) (ref : SegmentRef) :
    Nat → Nat → List Nat
  | 0, _ => []
  | fuel + 1, i =>
      if i < ref.maxSize then
        let c := s.getChar ref i
        if c = 0 then [] else c :: getStringCellLoop s ref fuel (i + 1)
      else []

/-- SegManager::getString: empty on a null or unresolvable pointer; on a
raw view the bytes up to the first zero within maxSize (raw strings carry
no termination guarantee); on a non-raw view the getChar bytes up to a
zero or maxSize. -/
def SegManager.getString (s : SegManager) (p : Reg) : List Nat :=
  if p.isNull then []
  else
    let src_r := s.dereference p
    if src_r.valid = false then []
    else if src_r.isRaw then
      readRawList (s.rawFnAt src_r.seg) src_r.base
        (strnlenAux (s.rawFnAt src_r.seg) src_r.base src_r.maxSize)
    else getStringCellLoop s src_r src_r.maxSize 0

/-- derefPtr: the common helper of the typed accessors. An invalid view, a
misaligned non-raw access (skipByte with a cell expectation), or a request
beyond maxSize yields null; a raw/non-raw mismatch only produces a
diagnostic and the resolution continues. The returned triple (raw flag,
slot, unit index) stands for the returned C pointer. -/
def derefPtr (s : SegManager) (pointer : Reg) (entries : Int) (wantRaw : Bool) :
    Option (Bool × Nat × Nat) :=
  let ret := s.dereference pointer
  if ret.valid = false then none
  else if wantRaw = false ∧ ret.skipByte = true then none
  else if (ret.maxSize : Int) < entries then none
  else some (ret.isRaw, ret.seg, ret.base)

/-- SegManager::derefBulkPtr. -/
def SegManager.derefBulkPtr (s : SegManager) (pointer : Reg) (entries : Int) :
    Option (Bool × Nat × Nat) :=
  derefPtr s pointer entries true

/-- SegManager::derefRegPtr: cell access, checked against 2 * entries
bytes. -/
def SegManager.derefRegPtr (s : SegManager) (pointer : Reg) (entries : Int) :
    Option (Bool × Nat × Nat) :=
  derefPtr s pointer (2 * entries) false

/-- SegManager::derefString. -/
def SegManager.derefString (s : SegManager) (pointer : Reg) (entries : Int) :
    Option (Bool × Nat × Nat) :=
  derefPtr s pointer entries true

/-- The non-raw destination loop of memcpy from a host buffer: exactly n
setChar writes, with no zero-byte semantics. -/
def cellFromCharsLoop (ref : SegmentRef) (src : Nat → Nat) :
    Nat → SegManager → Nat → SegManager
  | 0, s, _ => s
  | fuel + 1, s, i => cellFromCharsLoop ref src fuel (s.setChar ref i (src i)) (i + 1)

/-- SegManager::memcpy from a host buffer into a tagged destination:
refuses (no-op) on an invalid destination or when the int cast of n
exceeds the destination's maxSize; otherwise copies exactly n bytes. -/
def SegManager.memcpyChars (s : SegManager) (dest : Reg) (src : Nat → Nat) (n : Nat) :
    SegManager :=
  let dest_r := s.dereference dest
  if dest_r.valid = false then s
  else if (dest_r.maxSize : Int) < intOfSizeT n then s
  else if dest_r.isRaw then
    s.setRawFnAt dest_r.seg (forwardCopy false (s.rawFnAt dest_r.seg) src dest_r.base 0 n)
  else cellFromCharsLoop dest_r src n s 0

/-- The raw destination loop of memcpy from a non-raw source: exactly n
getChar reads into the destination buffer. -/
def charsFromCellLoop (s : SegManager) (src_r : SegmentRef) (dbase : Nat) :
    Nat → (Nat → Nat) → Nat → Nat → Nat
  | 0, destf, _ => destf
  | fuel + 1, destf, i =>
      charsFromCellLoop s src_r dbase fuel (updFn destf (dbase + i) (s.getChar src_r i)) (i + 1)

/-- SegManager::memcpy from a tagged source into a host buffer: the
destination buffer is returned unchanged on an unresolvable source or when
the int cast of n exceeds the source's maxSize. -/
def SegManager.memcpyToChars (destf : Nat → Nat) (dbase : Nat) (s : SegManager)
    (src : Reg) (n : Nat) : Nat → Nat :=
  let src_r := s.dereference src
  if src_r.valid = false then destf
  else if (src_r.maxSize : Int) < intOfSizeT n then destf
  else if src_r.isRaw then
    forwardCopy false destf (fun i => s.rawFnAt src_r.seg (src_r.base + i)) dbase 0 n
  else charsFromCellLoop s src_r dbase n destf 0

/-- The non-raw to non-raw loop of memcpy between tagged pointers: exactly
n bytes through the evolving state. -/
def cellFromCellNLoop (src_r dest_r : SegmentRef) :
    Nat → SegManager → Nat → SegManager
  | 0, s, _ => s
  | fuel + 1, s, i =>
      cellFromCellNLoop src_r dest_r fuel (s.setChar dest_r i (s.getChar src_r i)) (i + 1)

/-- SegManager::memcpy between tagged pointers: refuses (diagnostic,
no-op) when either endpoint is unresolvable or when the int cast of n
exceeds either endpoint's maxSize; otherwise copies exactly n bytes with
no zero-termination semantics, delegating to the host-buffer overloads
when one endpoint is raw. -/
def SegManager.memcpyReg (s : SegManager) (dest src : Reg) (n : Nat) : SegManager :=
  let dest_r := s.dereference dest
  let src_r := s.dereference src
  if dest_r.valid = false then s
  else if (dest_r.maxSize : Int) < intOfSizeT n then s
  else if src_r.valid = false then s
  else if (src_r.maxSize : Int) < intOfSizeT n then s
  else if src_r.isRaw then
    s.memcpyChars dest (fun i => s.rawFnAt src_r.seg (src_r.base + i)) n
  else if dest_r.isRaw then
    s.setRawFnAt dest_r.seg (s.memcpyToChars (s.rawFnAt dest_r.seg) dest_r.base src n)
  else cellFromCellNLoop src_r dest_r n s 0

/-- SegManager::getScriptSegment (map form): the segment id registered for
a script number, or 0. -/
def SegManager.getScriptSegment (s : SegManager) (script_id : Int) : Nat :=
  match s.scriptSegMap.find? (fun e => e.1 = script_id) with
  | some e => e.2
  | none => 0

/-- The script stored at a directory slot (no masking; the caller resolves
the actual slot first). -/
def SegManager.scriptAtSlot (s : SegManager) (slot : Nat) : Option ScriptData :=
  match s.heapAt slot with
  | some (.script sc) => some sc
  | _ => none

/-- Replaces the script stored at a directory slot. -/
def SegManager.setScriptAtSlot (s : SegManager) (slot : Nat) (sc : ScriptData) : SegManager :=
  { s with heap := s.heap.set slot (some (.script sc)) }

/-- Applies an update to the script object at a slot (the embedding of a
mutation through a live Script pointer). -/
def SegManager.modifyScriptAt (s : SegManager) (slot : Nat) (f : ScriptData → ScriptData) :
    SegManager :=
  match s.scriptAtSlot slot with
  | some sc => s.setScriptAtSlot slot (f sc)
  | none => s

/-- The live locker count of the script at a slot (0 when none). -/
def SegManager.lockersAt (s : SegManager) (slot : Nat) : Nat :=
  match s.scriptAtSlot slot with
  | some sc => sc.lockers
  | none => 0

/-- The class table entry for a class number (a junk entry with owner -1
outside the table, standing for the out-of-range indexing of the
source). -/
def SegManager.classAt (s : SegManager) (i : Int) : ClassEntry :=
  if h : 0 ≤ i ∧ i.toNat < s.classTable.length then
    s.classTable.get ⟨i.toNat, h.2⟩
  else { script := -1, reg := NULL_REG }

/-- The class-table clearing loop of uninstantiateScript: every entry
whose resolved address lives in the given segment id is reset to the null
address. -/
def SegManager.clearClassRefs (s : SegManager) (segmentId : Nat) : SegManager :=
  { s with classTable :=
      s.classTable.map (fun c =>
        if c.reg.segment = segmentId then { c with reg := NULL_REG } else c) }

/-- Modelled from the spec: the load step of instantiation (Script::load
with its init, not part of the embedded sources): populates the bytecode
buffer from the resource collaborator, resets the deleted mark and gives
the fresh script one locker. -/
def SegManager.loadScriptAt (s : SegManager) (slot : Nat) (nr : Int) : SegManager :=
  s.modifyScriptAt slot (fun sc =>
    { sc with scriptNumber := nr, bufLen := (s.resources nr).length,
              buf := ofBytes (s.resources nr), lockers := 1,
              markedAsDeleted := false })

/-- SegManager::allocateScript: returns the already registered segment of
the script number if any, otherwise installs a fresh Script segment and
registers it in the script-number map. -/
def SegManager.allocateScript (s : SegManager) (script_nr : Int) : SegManager × Nat :=
  let segid := s.getScriptSegment script_nr
  if 0 < segid then (s, segid)
  else
    let r := s.allocSegment (.script ScriptData.new)
    ({ r.1 with scriptSegMap := (script_nr, r.2) :: r.1.scriptSegMap }, r.2)

/-- SegManager::instantiateScript: an existing, not deleted script only
gains a locker; an existing but deleted script is reset in place and
reloaded; otherwise a fresh Script segment is allocated and loaded. -/
def SegManager.instantiateScript (s : SegManager) (scriptNum : Int) : SegManager × Nat :=
  let segmentId := s.getScriptSegment scriptNum
  match s.getScriptIfLoaded segmentId with
  | some scr =>
      if scr.markedAsDeleted = false then
        (s.modifyScriptAt (s.getActualSegment segmentId) ScriptData.incrementLockers,
         segmentId)
      else
        let slot := s.getActualSegment segmentId
        ((s.modifyScriptAt slot ScriptData.freeScriptKeep).loadScriptAt slot scriptNum,
         segmentId)
  | none =>
      let r := s.allocateScript scriptNum
      (r.1.loadScriptAt (r.1.getActualSegment r.2) scriptNum, r.2)

mutual

/-- SegManager::uninstantiateScript: a no-op on a script that is not
loaded or already marked deleted; otherwise one locker is released, and
when the count reaches zero the class-table references into the segment
are cleared, the SCI0-generation superclass walk runs, and the script is
marked deleted if its count is still zero. Every recursive step consumes
one unit of fuel; noFuel is the image of unbounded recursion. -/
def SegManager.uninstantiateScript : Nat → SegManager → Int → RunResult
  | 0, _, _ => .noFuel
  | fuel + 1, s, script_nr =>
      let segmentId := s.getScriptSegment script_nr
      match s.getScriptIfLoaded segmentId with
      | none => .ok s
      | some scr =>
          if scr.markedAsDeleted then .ok s
          else
            let slot := s.getActualSegment segmentId
            let s1 := s.modifyScriptAt slot ScriptData.decrementLockers
            if 0 < s1.lockersAt slot then .ok s1
            else
              let s2 := s1.clearClassRefs segmentId
              let r3 :=
                if s2.version < SCI_VERSION_1_1 then
                  SegManager.uninstantiateScriptSci0 fuel s2 script_nr
                else .ok s2
              r3.bindOk (fun s3 =>
                if s3.lockersAt slot = 0 then
                  .ok (s3.modifyScriptAt slot ScriptData.markDeleted)
                else .ok s3)

/-- SegManager::uninstantiateScriptSci0: walks the script's object records
in file order; the cursor starts at offset 2 for the early header and 0
otherwise, each iteration first steps over the previous record's length,
stops on a zero object type, and for an object or class record reads the
superclass field; a non-negative superclass owned by another script
recursively uninstantiates that script, one owned by this script only
releases one of this script's own lockers (when positive). -/
def SegManager.uninstantiateScriptSci0 : Nat → SegManager → Int → RunResult
  | 0, _, _ => .noFuel
  | fuel + 1, s, script_nr =>
      let oldScriptHeader := s.version = SCI_VERSION_0_EARLY
      let segmentId := s.getScriptSegment script_nr
      match s.getScriptM segmentId with
      | none => .fatal
      | some scr =>
          let reg0 := make_reg segmentId (if oldScriptHeader then 2 else 0)
          SegManager.uninstWalk fuel s script_nr (s.getActualSegment segmentId)
            scr.buf reg0 0

/-- One pass of the superclass walk of uninstantiateScriptSci0: the
per-iteration cursor arithmetic follows the incOffset sequence of the
source (step over the previous record, step over the header, skip to the
superclass field, step back by the magic offset and the header). -/
def SegManager.uninstWalk : Nat → SegManager → Int → Nat → (Nat → Nat) → Reg → Nat →
    RunResult
  | 0, _, _, _, _, _, _ => .noFuel
  | fuel + 1, s, script_nr, slot, buf, reg, objLength =>
      let reg := reg.incOffset (objLength : Int)
      let objType := read16 buf reg.offset
      if objType = 0 then .ok s
      else
        let objLength' := read16 buf (reg.offset + 2)
        let reg := reg.incOffset 4
        if objType = SCI_OBJ_OBJECT ∨ objType = SCI_OBJ_CLASS then
          let reg := reg.incOffset 8
          let superclass := toInt16 (read16 buf (reg.offset + 2))
          let reg := (reg.incOffset (-8)).incOffset (-4)
          if 0 ≤ superclass then
            let superclass_script := (s.classAt superclass).script
            if superclass_script = script_nr then
              let s' :=
                if 0 < s.lockersAt slot then
                  s.modifyScriptAt slot ScriptData.decrementLockers
                else s
              SegManager.uninstWalk fuel s' script_nr slot buf reg objLength'
            else
              (SegManager.uninstantiateScript fuel s superclass_script).bindOk
                (fun s' => SegManager.uninstWalk fuel s' script_nr slot buf reg objLength')
          else SegManager.uninstWalk fuel s script_nr slot buf reg objLength'
        else
          let reg := reg.incOffset (-4)
          SegManager.uninstWalk fuel s script_nr slot buf reg objLength'

end

/-- The identifier returned by the allocSegment following a given run
outcome (none when the run aborted). -/
def allocAfter (r : RunResult) (o : SegmentObj) : Option Nat :=
  match r with
  | .ok s => some (s.allocSegment o).2
  | _ => none

/-- The locals segment of a segment object (0 for non-scripts). -/
def localsOf : SegmentObj → Nat
  | .script sc => sc.localsSegment
  | _ => 0

/-- Example state: a directory holding one raw dynamic buffer of four
filler bytes at slot 1. -/
def sDyn : SegManager :=
  { heap := [none, some (.dynMem 4 (ofBytes [7, 7, 7, 7]))], scriptSegMap := [],
    classTable := [], version := SCI_VERSION_0_LATE, resources := fun _ => [] }

/-- Example state: the same directory under the addressing generation that
masks identifiers to 14 bits. -/
def sMask : SegManager :=
  { sDyn with version := SCI_VERSION_3 }

/-- Example state: a directory holding one cell-addressed segment of two
zeroed cells at slot 1. -/
def sCellEx : SegManager :=
  { heap := [none, some (.cellSeg 2 (fun _ => NULL_REG))], scriptSegMap := [],
    classTable := [], version := SCI_VERSION_0_LATE, resources := fun _ => [] }

/-- A directory holding one raw dynamic buffer of the given size and
contents at slot 1. -/
def mkRawState (m : Nat) (fill : Nat → Nat) : SegManager :=
  { heap := [none, some (.dynMem m fill)], scriptSegMap := [],
    classTable := [], version := SCI_VERSION_0_LATE, resources := fun _ => [] }

/-- Example state: a directory holding a four-byte raw buffer (filled
with 7) at slot 1 and an eight-byte raw buffer (filled with 9) at
slot 2. -/
def sC8 : SegManager :=
  { heap := [none, some (.dynMem 4 (fun _ => 7)), some (.dynMem 8 (fun _ => 9))],
    scriptSegMap := [], classTable := [], version := SCI_VERSION_0_LATE,
    resources := fun _ => [] }

/-- A directory holding one cell-addressed segment of the given cell count
and contents at slot 1. -/
def mkCellState (mc : Nat) (cells : Nat → Reg) : SegManager :=
  { heap := [none, some (.cellSeg mc cells)], scriptSegMap := [],
    classTable := [], version := SCI_VERSION_0_LATE, resources := fun _ => [] }

/-- k-fold iteration of instantiateScript on one script number: the state
component of each call feeds the next. -/
def iterInstantiate (nr : Int) : Nat → SegManager → SegManager
  | 0, s => s
  | k + 1, s => ((iterInstantiate nr k s).instantiateScript nr).1

/-- k-fold iteration of uninstantiateScript at a fixed fuel, stopping at
the first aborted run. -/
def iterUninstantiate (nr : Int) (fuel : Nat) : Nat → SegManager → RunResult
  | 0, s => .ok s
  | k + 1, s =>
      (iterUninstantiate nr fuel k s).bindOk
        (fun s' => SegManager.uninstantiateScript fuel s' nr)

/-- The observable lifecycle facts of the script at a slot after a run:
its locker count and deleted mark (none when the run aborted or the slot
holds no script). -/
def resultScriptState (r : RunResult) (slot : Nat) : Option (Nat × Bool) :=
  match r with
  | .ok s =>
      match s.scriptAtSlot slot with
      | some sc => some (sc.lockers, sc.markedAsDeleted)
      | none => none
  | _ => none

/-- Lifecycle example: an empty directory under an arbitrary version, the
resource collaborator serving a four-byte all-zero script body (a bare
terminating record) for every script number. -/
def c5Base (v : Nat) : SegManager :=
  SegManager.mk [none] [] [] v (fun _ => [0, 0, 0, 0])

/-- The script object of the lifecycle example at a given locker count. -/
def c5Script (k : Nat) : ScriptData :=
  ScriptData.mk 100 4 (ofBytes [0, 0, 0, 0]) k false 0

/-- The lifecycle example after loading script 100 into slot 1, at a given
locker count. -/
def c5Loaded (v k : Nat) : SegManager :=
  SegManager.mk [none, some (.script (c5Script k))] [(100, 1)] [] v
    (fun _ => [0, 0, 0, 0])

/-- The lifecycle example after the final uninstantiation: zero lockers
and the deleted mark set. -/
def c5Deleted (v : Nat) : SegManager :=
  SegManager.mk
    [none, some (.script (ScriptData.mk 100 4 (ofBytes [0, 0, 0, 0]) 0 true 0))]
    [(100, 1)] [] v (fun _ => [0, 0, 0, 0])

/-- Script B's bytecode for the superclass scenario: one class record
(object type 6, record length 16) whose superclass field at offset 14
holds class number 0, followed by the terminating zero record. -/
def c6BufB : List Nat :=
  [6, 0, 16, 0, 0, 0, 0, 0, 0, 0, 0, 0, 0, 0, 0, 0, 0, 0]

/-- Superclass scenario: script A (number 100, a bare terminating record)
loaded at slot 1 with the given locker count; the class table owns class 0
to script 100 and class 1 to script 200; the resource collaborator serves
script B's class-record body for number 200. -/
def c6Base (a : Nat) : SegManager :=
  SegManager.mk
    [none, some (.script (ScriptData.mk 100 4 (ofBytes [0, 0, 0, 0]) a false 0))]
    [(100, 1)] [ClassEntry.mk 100 NULL_REG, ClassEntry.mk 200 NULL_REG]
    SCI_VERSION_0_LATE (fun nr => if nr = 200 then c6BufB else [0, 0, 0, 0])

/-- The superclass scenario after instantiating script B (number 200) into
slot 2. -/
def c6Loaded (a : Nat) : SegManager :=
  SegManager.mk
    [none, some (.script (ScriptData.mk 100 4 (ofBytes [0, 0, 0, 0]) a false 0)),
     some (.script (ScriptData.mk 200 18 (ofBytes c6BufB) 1 false 0))]
    [(200, 2), (100, 1)] [ClassEntry.mk 100 NULL_REG, ClassEntry.mk 200 NULL_REG]
    SCI_VERSION_0_LATE (fun nr => if nr = 200 then c6BufB else [0, 0, 0, 0])

/-- Self-superclass scenario: script 200 at slot 1 whose class record's
superclass is class 0, itself owned by script 200, with the given locker
count; a bystander script 100 at slot 2. -/
def c6Self (l : Nat) : SegManager :=
  SegManager.mk
    [none, some (.script (ScriptData.mk 200 18 (ofBytes c6BufB) l false 0)),
     some (.script (ScriptData.mk 100 4 (ofBytes [0, 0, 0, 0]) 5 false 0))]
    [(200, 1), (100, 2)] [ClassEntry.mk 200 NULL_REG] SCI_VERSION_0_LATE
    (fun _ => [])

/-- Intermediate superclass-scenario state: script B's locker already
released (count 0), script A still holding the given count, nothing
deleted. -/
def c6Dec (a : Nat) : SegManager :=
  SegManager.mk
    [none, some (.script (ScriptData.mk 100 4 (ofBytes [0, 0, 0, 0]) a false 0)),
     some (.script (ScriptData.mk 200 18 (ofBytes c6BufB) 0 false 0))]
    [(200, 2), (100, 1)] [ClassEntry.mk 100 NULL_REG, ClassEntry.mk 200 NULL_REG]
    SCI_VERSION_0_LATE (fun nr => if nr = 200 then c6BufB else [0, 0, 0, 0])

/-- Superclass-scenario state after the propagated unlock deleted script A
(count fell from 1 to 0) while script B's own release is still in
flight. -/
def c6ADel : SegManager :=
  SegManager.mk
    [none, some (.script (ScriptData.mk 100 4 (ofBytes [0, 0, 0, 0]) 0 true 0)),
     some (.script (ScriptData.mk 200 18 (ofBytes c6BufB) 0 false 0))]
    [(200, 2), (100, 1)] [ClassEntry.mk 100 NULL_REG, ClassEntry.mk 200 NULL_REG]
    SCI_VERSION_0_LATE (fun nr => if nr = 200 then c6BufB else [0, 0, 0, 0])

/-- Script 100's bytecode for the cyclic scenario: a class record whose
superclass field holds class number 1 (owned by script 200). -/
def c7BufA : List Nat :=
  [6, 0, 16, 0, 0, 0, 0, 0, 0, 0, 0, 0, 0, 0, 1, 0, 0, 0]

/-- Script 200's bytecode for the cyclic scenario: a class record whose
superclass field holds class number 0 (owned by script 100). -/
def c7BufB : List Nat :=
  [6, 0, 16, 0, 0, 0, 0, 0, 0, 0, 0, 0, 0, 0, 0, 0, 0, 0]

/-- The cyclic two-script state at the given locker counts: class 0 is
owned by script 100 (slot 1) whose class record names class 1 as its
superclass, and class 1 is owned by script 200 (slot 2) whose class record
names class 0 as its superclass — a superclass cycle in the loaded
data. -/
def c7State (la lb : Nat) : SegManager :=
  SegManager.mk
    [none, some (.script (ScriptData.mk 100 18 (ofBytes c7BufA) la false 0)),
     some (.script (ScriptData.mk 200 18 (ofBytes c7BufB) lb false 0))]
    [(100, 1), (200, 2)] [ClassEntry.mk 100 NULL_REG, ClassEntry.mk 200 NULL_REG]
    SCI_VERSION_0_LATE (fun _ => [])

/-! Theorems. -/

theorem getActualSegment_of_masked (s : SegManager) (id : Nat)
    (hv : SCI_VERSION_2_1_LATE < s.version) :
    s.getActualSegment id = id % 16384 ∧ s.getActualSegment (id % 16384) = id % 16384 := by
  unfold SegManager.getActualSegment
  have h : ¬ s.version ≤ SCI_VERSION_2_1_LATE := Nat.not_le.mpr hv
  constructor
  · rw [if_neg h]
  · rw [if_neg h]
    omega

theorem getActualSegment_small (s : SegManager) (id : Nat) (h : id < 16384) :
    s.getActualSegment id = id := by
  unfold SegManager.getActualSegment
  split <;> omega

/-- C1. Dereference of a pointer whose segment id is 0, at or beyond the
directory size, or indexing an empty slot always returns the invalid view
(which carries no pointer); the embedding has no fatal path here. -/
theorem C1_dereference_invalid (s : SegManager) (p : Reg)
    (h : p.segment = 0 ∨ s.heap.length ≤ p.segment ∨ s.heapAt p.segment = none) :
    s.dereference p = invalidRef := by
  unfold SegManager.dereference
  rcases h with h | h | h
  · simp [h]
  · simp [h]
  · by_cases h2 : p.segment = 0 ∨ s.heap.length ≤ p.segment
    · simp [h2]
    · simp [h2, h]

/-- Witness for C1 at a concrete input. -/
theorem C1_dereference_invalid_w :
    sDyn.dereference (make_reg 0 5) = invalidRef :=
  C1_dereference_invalid sDyn (make_reg 0 5) (Or.inl rfl)

/-- C2 counterexample: under the masking generation, dereference does not
mask the identifier, so it behaves differently on an identifier and on its
low 14 bits (16385 masks to 1, which resolves; 16385 itself does not). -/
theorem C2_cex_dereference_unmasked :
    sMask.dereference (make_reg 16385 0) ≠ sMask.dereference (make_reg 1 0) := by
  decide

/-- C2 (amended). In the addressing generation that encodes extra high
bits, the lookup entry points (getSegmentObj, getSegmentType, the typed
getSegment, getScriptIfLoaded, getScript) and deallocate mask the
identifier to its low 14 bits and therefore behave identically on an
identifier and on its low 14 bits; dereference, however, uses the
identifier unmodified (see the counterexample). -/
theorem C2_lookup_deallocate_masked (s : SegManager) (id fuel ty : Nat)
    (hv : SCI_VERSION_2_1_LATE < s.version) :
    s.getSegmentObj id = s.getSegmentObj (id % 16384)
    ∧ s.getSegmentType id = s.getSegmentType (id % 16384)
    ∧ s.getSegmentTyped id ty = s.getSegmentTyped (id % 16384) ty
    ∧ s.getScriptIfLoaded id = s.getScriptIfLoaded (id % 16384)
    ∧ s.getScriptM id = s.getScriptM (id % 16384)
    ∧ SegManager.deallocate fuel s id = SegManager.deallocate fuel s (id % 16384) := by
  obtain ⟨h1, h2⟩ := getActualSegment_of_masked s id hv
  refine ⟨?_, ?_, ?_, ?_, ?_, ?_⟩
  · unfold SegManager.getSegmentObj
    rw [h1, h2]
  · unfold SegManager.getSegmentType SegManager.getSegmentObj
    rw [h1, h2]
  · unfold SegManager.getSegmentTyped
    rw [h1, h2]
  · unfold SegManager.getScriptIfLoaded
    rw [h1, h2]
  · unfold SegManager.getScriptM SegManager.getScriptIfLoaded
    rw [h1, h2]
  · cases fuel with
    | zero => rfl
    | succ f =>
        unfold SegManager.deallocate
        rw [h1, h2]

/-- Witness for C2 at a concrete input. -/
theorem C2_lookup_deallocate_masked_w :
    sMask.getSegmentObj 16385 = sMask.getSegmentObj (16385 % 16384)
    ∧ sMask.getSegmentType 16385 = sMask.getSegmentType (16385 % 16384)
    ∧ sMask.getSegmentTyped 16385 SEG_TYPE_DYNMEM
        = sMask.getSegmentTyped (16385 % 16384) SEG_TYPE_DYNMEM
    ∧ sMask.getScriptIfLoaded 16385 = sMask.getScriptIfLoaded (16385 % 16384)
    ∧ sMask.getScriptM 16385 = sMask.getScriptM (16385 % 16384)
    ∧ SegManager.deallocate 3 sMask 16385 = SegManager.deallocate 3 sMask (16385 % 16384) :=
  C2_lookup_deallocate_masked sMask 16385 3 SEG_TYPE_DYNMEM (by decide)

theorem derefPtr_eq_none_iff (s : SegManager) (p : Reg) (entries : Int) (wantRaw : Bool) :
    derefPtr s p entries wantRaw = none ↔
      (s.dereference p).valid = false
      ∨ (wantRaw = false ∧ (s.dereference p).skipByte = true)
      ∨ ((s.dereference p).maxSize : Int) < entries := by
  unfold derefPtr
  by_cases h1 : (s.dereference p).valid = false
  · simp [h1]
  · by_cases h2 : wantRaw = false ∧ (s.dereference p).skipByte = true
    · simp [h1, h2]
    · by_cases h3 : ((s.dereference p).maxSize : Int) < entries
      · simp [h1, h2, h3]
      · simp [h1, h2, h3]

/-- C4 counterexample: a bulk (raw-expecting) accessor applied to a
non-raw view whose bounds are respected returns a non-null result; the
raw/non-raw mismatch only produces a diagnostic, not a null result. -/
theorem C4_cex_mismatch_not_null :
    (sCellEx.dereference (make_reg 1 0)).isRaw = false
    ∧ sCellEx.derefBulkPtr (make_reg 1 0) 2 ≠ none := by
  decide

/-- C4 (amended). The typed accessors layered on dereference return null
exactly when the pointer does not resolve, when a cell-expecting accessor
meets a mid-cell (skipByte) view, or when the requested count exceeds the
view's maxSize (2 bytes per cell for derefRegPtr); a raw/non-raw mismatch
produces only a diagnostic while the resolution continues, and no accessor
raises (they are total). -/
theorem C4_accessor_null_conditions (s : SegManager) (p : Reg) (entries : Int) :
    (s.derefBulkPtr p entries = none ↔
       (s.dereference p).valid = false ∨ ((s.dereference p).maxSize : Int) < entries)
    ∧ (s.derefString p entries = none ↔
       (s.dereference p).valid = false ∨ ((s.dereference p).maxSize : Int) < entries)
    ∧ (s.derefRegPtr p entries = none ↔
       (s.dereference p).valid = false ∨ (s.dereference p).skipByte = true
         ∨ ((s.dereference p).maxSize : Int) < 2 * entries) := by
  refine ⟨?_, ?_, ?_⟩
  · rw [SegManager.derefBulkPtr, derefPtr_eq_none_iff]
    simp
  · rw [SegManager.derefString, derefPtr_eq_none_iff]
    simp
  · rw [SegManager.derefRegPtr, derefPtr_eq_none_iff]
    simp

theorem listGetD_set_eq {α : Type} (d v : α) :
    ∀ (l : List α) (i : Nat), i < l.length → (l.set i v).getD i d = v := by
  intro l
  induction l with
  | nil => intro i h; simp at h
  | cons a t ih =>
      intro i h
      cases i with
      | zero => simp
      | succ n =>
          simp only [List.set_cons_succ, List.getD_cons_succ]
          exact ih n (by simpa using h)

theorem listGetD_set_ne {α : Type} (d v : α) :
    ∀ (l : List α) (i j : Nat), i ≠ j → (l.set i v).getD j d = l.getD j d := by
  intro l
  induction l with
  | nil => intro i j _; simp [List.set]
  | cons a t ih =>
      intro i j hne
      cases i with
      | zero =>
          cases j with
          | zero => exact absurd rfl hne
          | succ m => simp
      | succ n =>
          cases j with
          | zero => simp
          | succ m =>
              simp only [List.set_cons_succ, List.getD_cons_succ]
              exact ih n m (by omega)

theorem listGetD_append_lt {α : Type} (d x : α) :
    ∀ (l : List α) (j : Nat), j < l.length → (l ++ [x]).getD j d = l.getD j d := by
  intro l
  induction l with
  | nil => intro j h; simp at h
  | cons a t ih =>
      intro j h
      cases j with
      | zero => simp
      | succ m =>
          simp only [List.cons_append, List.getD_cons_succ]
          exact ih m (by simpa using h)

theorem listGetD_append_len {α : Type} (d x : α) :
    ∀ (l : List α), (l ++ [x]).getD l.length d = x := by
  intro l
  induction l with
  | nil => simp
  | cons a t ih =>
      simp only [List.cons_append, List.length_cons, List.getD_cons_succ]
      exact ih

theorem listGetD_ge {α : Type} (d : α) :
    ∀ (l : List α) (j : Nat), l.length ≤ j → l.getD j d = d := by
  intro l
  induction l with
  | nil => intro j _; simp
  | cons a t ih =>
      intro j h
      cases j with
      | zero => simp at h
      | succ m =>
          simp only [List.getD_cons_succ]
          exact ih m (by simpa using h)

theorem findFreeAux_ge (heap : List (Option SegmentObj)) :
    ∀ fuel seg, seg ≤ findFreeAux heap fuel seg := by
  intro fuel
  induction fuel with
  | zero => intro seg; simp [findFreeAux]
  | succ f ih =>
      intro seg
      unfold findFreeAux
      split
      · exact le_trans (Nat.le_succ seg) (ih (seg + 1))
      · exact le_refl seg

theorem findFreeAux_le (heap : List (Option SegmentObj)) :
    ∀ fuel seg, seg ≤ heap.length → findFreeAux heap fuel seg ≤ heap.length := by
  intro fuel
  induction fuel with
  | zero => intro seg h; simpa [findFreeAux] using h
  | succ f ih =>
      intro seg h
      unfold findFreeAux
      split
      next hc => exact ih (seg + 1) (by omega)
      next hc => exact h

theorem findFreeAux_scanned (heap : List (Option SegmentObj)) :
    ∀ fuel seg j, seg ≤ j → j < findFreeAux heap fuel seg →
      (heap.getD j none).isSome := by
  intro fuel
  induction fuel with
  | zero =>
      intro seg j h1 h2
      simp only [findFreeAux] at h2
      omega
  | succ f ih =>
      intro seg j h1 h2
      unfold findFreeAux at h2
      by_cases hc : seg < heap.length ∧ (heap.getD seg none).isSome
      · rw [if_pos hc] at h2
        by_cases hj : j = seg
        · subst hj; exact hc.2
        · exact ih (seg + 1) j (by omega) h2
      · rw [if_neg hc] at h2
        omega

theorem findFreeAux_eq_target (heap : List (Option SegmentObj)) (target : Nat)
    (hlt : target < heap.length) (hempty : heap.getD target none = none) :
    ∀ fuel seg, seg ≤ target → target ≤ seg + fuel →
      (∀ j, seg ≤ j → j < target → (heap.getD j none).isSome) →
      findFreeAux heap fuel seg = target := by
  intro fuel
  induction fuel with
  | zero =>
      intro seg h1 h2 _
      have he : seg = target := by omega
      subst he
      simp [findFreeAux]
  | succ f ih =>
      intro seg h1 h2 hocc
      unfold findFreeAux
      by_cases he : seg = target
      · subst he
        have hno : ¬ (seg < heap.length ∧ (heap.getD seg none).isSome) := by
          intro h
          rw [hempty] at h
          simp at h
        rw [if_neg hno]
      · have hso : (heap.getD seg none).isSome := hocc seg (le_refl _) (by omega)
        have hyes : seg < heap.length ∧ (heap.getD seg none).isSome := ⟨by omega, hso⟩
        rw [if_pos hyes]
        exact ih (seg + 1) (by omega) (by omega) (fun j hj1 hj2 => hocc j (by omega) hj2)

theorem findFreeSegment_eq (s : SegManager) (target : Nat) (h1 : 1 ≤ target)
    (hlt : target < s.heap.length) (hempty : s.heapAt target = none)
    (hocc : ∀ j, 1 ≤ j → j < target → (s.heapAt j).isSome) :
    s.findFreeSegment = target :=
  findFreeAux_eq_target s.heap target hlt hempty s.heap.length 1 h1 (by omega) hocc

theorem allocSegment_snd (s : SegManager) (o : SegmentObj) :
    (s.allocSegment o).2 = s.findFreeSegment := by
  by_cases h : s.heap.length ≤ s.findFreeSegment <;>
    simp [SegManager.allocSegment, h]

theorem findFreeAux_result (heap : List (Option SegmentObj)) :
    ∀ fuel seg, seg ≤ heap.length → heap.length ≤ seg + fuel →
      findFreeAux heap fuel seg = heap.length
      ∨ heap.getD (findFreeAux heap fuel seg) none = none := by
  intro fuel
  induction fuel with
  | zero =>
      intro seg h1 h2
      left
      simp only [findFreeAux]
      omega
  | succ f ih =>
      intro seg h1 h2
      unfold findFreeAux
      by_cases hc : seg < heap.length ∧ (heap.getD seg none).isSome
      · rw [if_pos hc]
        exact ih (seg + 1) (by omega) (by omega)
      · rw [if_neg hc]
        by_cases hs : seg < heap.length
        · right
          have hn : ¬ (heap.getD seg none).isSome = true := fun h => hc ⟨hs, h⟩
          exact Option.not_isSome_iff_eq_none.mp hn
        · left
          omega

theorem allocSegment_spec (s : SegManager) (o : SegmentObj) (hne : 1 ≤ s.heap.length) :
    1 ≤ (s.allocSegment o).2
    ∧ (s.allocSegment o).2 ≤ s.heap.length
    ∧ ((s.allocSegment o).2 = s.heap.length →
        (s.allocSegment o).1.heap.length = s.heap.length + 1)
    ∧ ((s.allocSegment o).2 < s.heap.length →
        (s.allocSegment o).1.heap.length = s.heap.length)
    ∧ (s.allocSegment o).1.heapAt (s.allocSegment o).2 = some o
    ∧ (∀ j, j ≠ (s.allocSegment o).2 → (s.allocSegment o).1.heapAt j = s.heapAt j)
    ∧ (s.heapAt (s.allocSegment o).2 = none ∨ (s.allocSegment o).2 = s.heap.length)
    ∧ (∀ j, 1 ≤ j → j < (s.allocSegment o).2 → (s.heapAt j).isSome)
    ∧ (s.allocSegment o).1.scriptSegMap = s.scriptSegMap
    ∧ (s.allocSegment o).1.version = s.version := by
  have hge : 1 ≤ s.findFreeSegment := findFreeAux_ge s.heap s.heap.length 1
  have hle : s.findFreeSegment ≤ s.heap.length :=
    findFreeAux_le s.heap s.heap.length 1 hne
  have hres : s.findFreeSegment = s.heap.length
      ∨ s.heap.getD s.findFreeSegment none = none :=
    findFreeAux_result s.heap s.heap.length 1 hne (by omega)
  have hscan : ∀ j, 1 ≤ j → j < s.findFreeSegment → (s.heapAt j).isSome := by
    intro j h1 h2
    exact findFreeAux_scanned s.heap s.heap.length 1 j h1 h2
  by_cases hc : s.heap.length ≤ s.findFreeSegment
  · have hid : s.findFreeSegment = s.heap.length := le_antisymm hle hc
    have halloc : s.allocSegment o
        = ({ s with heap := s.heap ++ [some o] }, s.findFreeSegment) := by
      simp only [SegManager.allocSegment]
      rw [if_pos hc]
    rw [halloc]
    refine ⟨hge, hle, ?_, ?_, ?_, ?_, Or.inr hid, hscan, rfl, rfl⟩
    · intro _
      simp
    · intro h
      omega
    · simp only [SegManager.heapAt]
      rw [hid]
      exact listGetD_append_len none (some o) s.heap
    · intro j hj
      simp only [SegManager.heapAt]
      rw [hid] at hj
      by_cases hjl : j < s.heap.length
      · exact listGetD_append_lt none (some o) s.heap j hjl
      · rw [listGetD_ge none _ j
            (by simp only [List.length_append, List.length_cons, List.length_nil]; omega),
          listGetD_ge none s.heap j (by omega)]
  · push_neg at hc
    have halloc : s.allocSegment o
        = ({ s with heap := s.heap.set s.findFreeSegment (some o) }, s.findFreeSegment) := by
      simp only [SegManager.allocSegment]
      rw [if_neg (by omega)]
    rw [halloc]
    refine ⟨hge, hle, ?_, ?_, ?_, ?_, ?_, hscan, rfl, rfl⟩
    · intro h
      omega
    · intro _
      simp
    · simp only [SegManager.heapAt]
      exact listGetD_set_eq none (some o) s.heap _ hc
    · intro j hj
      simp only [SegManager.heapAt]
      exact listGetD_set_ne none (some o) s.heap _ j (fun e => hj e.symm)
    · left
      rcases hres with h | h
      · omega
      · simpa [SegManager.heapAt] using h

theorem deallocate_step (s : SegManager) (seg : Nat) (o : SegmentObj)
    (hact : s.getActualSegment seg = seg) (h1 : 1 ≤ seg) (h2 : seg < s.heap.length)
    (hat : s.heapAt seg = some o) (hlo : localsOf o = 0) (fuel : Nat) :
    ∃ t, SegManager.deallocate (fuel + 1) s seg = .ok t
      ∧ t.heap = s.heap.set seg none := by
  have hno : ¬ (s.getActualSegment seg < 1 ∨ s.heap.length ≤ s.getActualSegment seg) := by
    rw [hact]
    omega
  cases o with
  | dynMem len f =>
      refine ⟨s.clearSlot seg, ?_, rfl⟩
      simp only [SegManager.deallocate]
      rw [if_neg hno, hact, hat]
  | cellSeg len cells =>
      refine ⟨s.clearSlot seg, ?_, rfl⟩
      simp only [SegManager.deallocate]
      rw [if_neg hno, hact, hat]
  | script sc =>
      have hl0 : sc.localsSegment = 0 := by simpa [localsOf] using hlo
      refine ⟨({ s with scriptSegMap := eraseKey sc.scriptNumber s.scriptSegMap
                  } : SegManager).clearSlot seg, ?_, rfl⟩
      simp only [SegManager.deallocate]
      rw [if_neg hno, hact, hat]
      simp [hl0]

/-- C9. Identifier allocation scans from 1 for the first empty slot (every
smaller identifier is occupied, and the chosen slot is empty or the
directory end), grows the directory by one slot only when no slot was
free, and after deallocating the first-allocated identifier the next
allocSegment returns that freed identifier again. -/
theorem C9_alloc_scan_and_reuse (s0 : SegManager) (o1 o2 o3 : SegmentObj)
    (hne : 1 ≤ s0.heap.length) (hsmall : s0.heap.length < 16384)
    (hlo : localsOf o1 = 0) :
    (∀ j, 1 ≤ j → j < (s0.allocSegment o1).2 → (s0.heapAt j).isSome)
    ∧ (s0.heapAt (s0.allocSegment o1).2 = none
        ∨ (s0.allocSegment o1).2 = s0.heap.length)
    ∧ ((s0.allocSegment o1).2 = s0.heap.length →
        (s0.allocSegment o1).1.heap.length = s0.heap.length + 1
        ∧ ∀ j, 1 ≤ j → j < s0.heap.length → (s0.heapAt j).isSome)
    ∧ ((s0.allocSegment o1).2 < s0.heap.length →
        (s0.allocSegment o1).1.heap.length = s0.heap.length)
    ∧ allocAfter
        (SegManager.deallocate 2 ((s0.allocSegment o1).1.allocSegment o2).1
          (s0.allocSegment o1).2) o3
        = some (s0.allocSegment o1).2 := by
  obtain ⟨h1ge, h1le, h1grow, h1stay, h1at, h1frame, h1free, h1scan, h1map, h1ver⟩ :=
    allocSegment_spec s0 o1 hne
  have hi1lt : (s0.allocSegment o1).2 < (s0.allocSegment o1).1.heap.length := by
    rcases Nat.lt_or_ge (s0.allocSegment o1).2 s0.heap.length with h | h
    · rw [h1stay h]
      exact h
    · have he : (s0.allocSegment o1).2 = s0.heap.length := by omega
      rw [h1grow he, he]
      omega
  obtain ⟨h2ge, h2le, h2grow, h2stay, h2at, h2frame, h2free, h2scan, h2map, h2ver⟩ :=
    allocSegment_spec (s0.allocSegment o1).1 o2 (by omega)
  have hi2ne : ((s0.allocSegment o1).1.allocSegment o2).2 ≠ (s0.allocSegment o1).2 := by
    intro he
    rcases h2free with h | h
    · rw [he, h1at] at h
      exact Option.noConfusion h
    · omega
  have hs2len : (s0.allocSegment o1).1.heap.length
      ≤ ((s0.allocSegment o1).1.allocSegment o2).1.heap.length := by
    rcases Nat.lt_or_ge ((s0.allocSegment o1).1.allocSegment o2).2
        (s0.allocSegment o1).1.heap.length with h | h
    · rw [h2stay h]
    · have he : ((s0.allocSegment o1).1.allocSegment o2).2
          = (s0.allocSegment o1).1.heap.length := by omega
      rw [h2grow he]
      omega
  have h2at1 : ((s0.allocSegment o1).1.allocSegment o2).1.heapAt (s0.allocSegment o1).2
      = some o1 := by
    rw [h2frame _ (fun e => hi2ne e.symm)]
    exact h1at
  have hver2 : ((s0.allocSegment o1).1.allocSegment o2).1.version
      = s0.version := by rw [h2ver, h1ver]
  refine ⟨h1scan, h1free, ?_, h1stay, ?_⟩
  · intro he
    refine ⟨h1grow he, ?_⟩
    intro j hj1 hj2
    exact h1scan j hj1 (by omega)
  · obtain ⟨t, ht, htheap⟩ := deallocate_step ((s0.allocSegment o1).1.allocSegment o2).1
      (s0.allocSegment o1).2 o1
      (getActualSegment_small _ _ (by omega)) h1ge (by omega) h2at1 hlo 1
    rw [ht]
    simp only [allocAfter]
    congr 1
    rw [allocSegment_snd]
    apply findFreeSegment_eq
    · exact h1ge
    · rw [htheap]
      simp only [List.length_set]
      omega
    · simp only [SegManager.heapAt, htheap]
      exact listGetD_set_eq none none _ _ (by omega)
    · intro j hj1 hj2
      simp only [SegManager.heapAt, htheap]
      rw [listGetD_set_ne none none _ _ j (by omega)]
      by_cases hji2 : j = ((s0.allocSegment o1).1.allocSegment o2).2
      · have := h2at
        simp only [SegManager.heapAt] at this
        rw [hji2, this]
        rfl
      · have hfr := h2frame j hji2
        simp only [SegManager.heapAt] at hfr
        rw [hfr]
        have hfr1 := h1frame j (by omega)
        simp only [SegManager.heapAt] at hfr1
        rw [hfr1]
        have := h1scan j hj1 hj2
        simpa [SegManager.heapAt] using this

/-- Witness for C9 at a concrete input. -/
theorem C9_alloc_scan_and_reuse_w :
    (∀ j, 1 ≤ j → j < (sDyn.allocSegment (.dynMem 1 (ofBytes []))).2 →
        (sDyn.heapAt j).isSome)
    ∧ (sDyn.heapAt (sDyn.allocSegment (.dynMem 1 (ofBytes []))).2 = none
        ∨ (sDyn.allocSegment (.dynMem 1 (ofBytes []))).2 = sDyn.heap.length)
    ∧ ((sDyn.allocSegment (.dynMem 1 (ofBytes []))).2 = sDyn.heap.length →
        (sDyn.allocSegment (.dynMem 1 (ofBytes []))).1.heap.length = sDyn.heap.length + 1
        ∧ ∀ j, 1 ≤ j → j < sDyn.heap.length → (sDyn.heapAt j).isSome)
    ∧ ((sDyn.allocSegment (.dynMem 1 (ofBytes []))).2 < sDyn.heap.length →
        (sDyn.allocSegment (.dynMem 1 (ofBytes []))).1.heap.length = sDyn.heap.length)
    ∧ allocAfter
        (SegManager.deallocate 2
          ((sDyn.allocSegment (.dynMem 1 (ofBytes []))).1.allocSegment
            (.dynMem 2 (ofBytes []))).1
          (sDyn.allocSegment (.dynMem 1 (ofBytes []))).2) (.dynMem 3 (ofBytes []))
        = some (sDyn.allocSegment (.dynMem 1 (ofBytes []))).2 :=
  C9_alloc_scan_and_reuse sDyn (.dynMem 1 (ofBytes [])) (.dynMem 2 (ofBytes []))
    (.dynMem 3 (ofBytes [])) (by decide) (by decide) rfl

theorem fcl_nostring (src : Nat → Nat) :
    ∀ (n : Nat) (dest : Nat → Nat) (d si : Nat),
      forwardCopyLoop false false src n dest d si
        = fun i => if d ≤ i ∧ i < d + n then src (si + (i - d)) else dest i := by
  intro n
  induction n with
  | zero =>
      intro dest d si
      funext i
      have hno : ¬ (d ≤ i ∧ i < d + 0) := by omega
      simp only [forwardCopyLoop]
      rw [if_neg hno]
  | succ m ih =>
      intro dest d si
      have hstep : forwardCopyLoop false false src (m + 1) dest d si
          = forwardCopyLoop false false src m (updFn dest d (src si)) (d + 1) (si + 1) := by
        simp [forwardCopyLoop]
      rw [hstep, ih]
      funext i
      by_cases h1 : d + 1 ≤ i ∧ i < d + 1 + m
      · rw [if_pos h1, if_pos (by omega)]
        congr 1
        omega
      · rw [if_neg h1]
        by_cases h2 : i = d
        · subst h2
          rw [if_pos (by omega)]
          simp [updFn]
        · rw [if_neg (by omega)]
          simp [updFn, h2]

theorem fcl_string (src : Nat → Nat) :
    ∀ (L n : Nat) (dest : Nat → Nat) (d si : Nat), L < n →
      (∀ j, j < L → src (si + j) ≠ 0) → src (si + L) = 0 →
      forwardCopyLoop true false src n dest d si
        = fun i => if d ≤ i ∧ i < d + L then src (si + (i - d))
            else if i = d + L then 0 else dest i := by
  intro L
  induction L with
  | zero =>
      intro n dest d si hn _ hz
      cases n with
      | zero => omega
      | succ m =>
          have hz0 : src si = 0 := by simpa using hz
          have hstep : forwardCopyLoop true false src (m + 1) dest d si
              = updFn dest d (src si) := by
            simp [forwardCopyLoop, hz0]
          rw [hstep]
          funext i
          by_cases h2 : i = d
          · subst h2
            rw [if_neg (by omega), if_pos (by omega)]
            simp [updFn, hz0]
          · rw [if_neg (by omega), if_neg (by omega)]
            simp [updFn, h2]
  | succ m ih =>
      intro n dest d si hn hnz hz
      cases n with
      | zero => omega
      | succ k =>
          have hnz0 : src si ≠ 0 := by simpa using hnz 0 (by omega)
          have hstep : forwardCopyLoop true false src (k + 1) dest d si
              = forwardCopyLoop true false src k (updFn dest d (src si)) (d + 1) (si + 1) := by
            simp only [forwardCopyLoop]
            rw [if_neg (fun h => hnz0 h.2)]
          rw [hstep, ih k _ _ _ (by omega)
            (fun j hj => by
              rw [show si + 1 + j = si + (j + 1) by omega]
              exact hnz (j + 1) (by omega))
            (by rw [show si + 1 + m = si + (m + 1) by omega]; exact hz)]
          funext i
          by_cases h1 : i = d
          · subst h1
            rw [if_neg (by omega), if_neg (by omega), if_pos (by omega)]
            simp [updFn]
          · by_cases h2 : d + 1 ≤ i ∧ i < d + 1 + m
            · rw [if_pos h2, if_pos (by omega)]
              congr 1
              omega
            · by_cases h3 : i = d + 1 + m
              · rw [if_neg h2, if_pos h3, if_neg (by omega), if_pos (by omega)]
              · rw [if_neg h2, if_neg h3, if_neg (by omega), if_neg (by omega)]
                simp [updFn, h1]

theorem strnlen_stops (buf : Nat → Nat) :
    ∀ (L base ms : Nat), L < ms →
      (∀ j, j < L → buf (base + j) % 256 ≠ 0) → buf (base + L) % 256 = 0 →
      strnlenAux buf base ms = L := by
  intro L
  induction L with
  | zero =>
      intro base ms h1 _ hz
      cases ms with
      | zero => omega
      | succ k =>
          have hz0 : buf base % 256 = 0 := by simpa using hz
          simp [strnlenAux, hz0]
  | succ m ih =>
      intro base ms h1 hnz hz
      cases ms with
      | zero => omega
      | succ k =>
          have h0 : ¬ buf base % 256 = 0 := by simpa using hnz 0 (by omega)
          simp only [strnlenAux]
          rw [if_neg h0]
          rw [ih (base + 1) k (by omega)
            (fun j hj => by
              rw [show base + 1 + j = base + (j + 1) by omega]
              exact hnz (j + 1) (by omega))
            (by rw [show base + 1 + m = base + (m + 1) by omega]; exact hz)]

theorem strnlen_full (buf : Nat → Nat) :
    ∀ (ms base : Nat), (∀ j, j < ms → buf (base + j) % 256 ≠ 0) →
      strnlenAux buf base ms = ms := by
  intro ms
  induction ms with
  | zero => intro base _; rfl
  | succ k ih =>
      intro base hnz
      have h0 : ¬ buf base % 256 = 0 := by simpa using hnz 0 (by omega)
      simp only [strnlenAux]
      rw [if_neg h0, ih (base + 1)
        (fun j hj => by
          rw [show base + 1 + j = base + (j + 1) by omega]
          exact hnz (j + 1) (by omega))]

theorem readRawList_recover :
    ∀ (l : List Nat) (buf : Nat → Nat) (base : Nat),
      (∀ j, j < l.length → buf (base + j) = l.getD j 0) →
      (∀ b ∈ l, b < 256) →
      readRawList buf base l.length = l := by
  intro l
  induction l with
  | nil => intro buf base _ _; rfl
  | cons a t ih =>
      intro buf base hv hb
      simp only [List.length_cons, readRawList]
      have h0 : buf base = a := by
        simpa using hv 0 (by simp only [List.length_cons]; omega)
      rw [h0, Nat.mod_eq_of_lt (hb a (by simp))]
      congr 1
      exact ih buf (base + 1)
        (fun j hj => by
          rw [show base + 1 + j = base + (j + 1) by omega]
          simpa using hv (j + 1) (by simp only [List.length_cons]; omega))
        (fun b hb2 => hb b (by simp [hb2]))

theorem readRawList_prefix :
    ∀ (ms : Nat) (l : List Nat) (buf : Nat → Nat) (base : Nat), ms ≤ l.length →
      (∀ j, j < ms → buf (base + j) = l.getD j 0) →
      (∀ b ∈ l, b < 256) →
      readRawList buf base ms = l.take ms := by
  intro ms
  induction ms with
  | zero => intro l buf base _ _ _; simp [readRawList]
  | succ k ih =>
      intro l buf base hle hv hb
      cases l with
      | nil => simp at hle
      | cons a t =>
          simp only [readRawList, List.take_succ_cons]
          have h0 : buf base = a := by simpa using hv 0 (by omega)
          rw [h0, Nat.mod_eq_of_lt (hb a (by simp))]
          congr 1
          exact ih t buf (base + 1) (by simpa using hle)
            (fun j hj => by
              rw [show base + 1 + j = base + (j + 1) by omega]
              simpa using hv (j + 1) (by omega))
            (fun b hb2 => hb b (by simp [hb2]))

theorem listGetD_take {α : Type} (d : α) :
    ∀ (ms : Nat) (l : List α) (j : Nat), j < ms → (l.take ms).getD j d = l.getD j d := by
  intro ms
  induction ms with
  | zero => intro l j h; omega
  | succ k ih =>
      intro l j h
      cases l with
      | nil => simp
      | cons a t =>
          cases j with
          | zero => simp
          | succ m =>
              simp only [List.take_succ_cons, List.getD_cons_succ]
              exact ih t m (by omega)

theorem heapAt_some_lt (s : SegManager) (i : Nat) (o : SegmentObj)
    (h : s.heapAt i = some o) : i < s.heap.length := by
  by_contra hc
  push_neg at hc
  unfold SegManager.heapAt at h
  rw [listGetD_ge none s.heap i hc] at h
  exact Option.noConfusion h

theorem setChar_heapAt_other (s : SegManager) (ref : SegmentRef) (j v slot : Nat)
    (h : slot ≠ ref.seg) :
    (s.setChar ref j v).heapAt slot = s.heapAt slot := by
  unfold SegManager.setChar SegManager.setCellAt
  cases hh : s.heapAt ref.seg with
  | none => rfl
  | some o =>
      cases o with
      | dynMem len f => rfl
      | script sc => rfl
      | cellSeg len cells =>
          simp only [SegManager.heapAt]
          exact listGetD_set_ne none _ s.heap ref.seg slot (fun e => h e.symm)

theorem setChar_heap_length (s : SegManager) (ref : SegmentRef) (j v : Nat) :
    (s.setChar ref j v).heap.length = s.heap.length := by
  unfold SegManager.setChar SegManager.setCellAt
  cases hh : s.heapAt ref.seg with
  | none => rfl
  | some o =>
      cases o with
      | dynMem len f => rfl
      | script sc => rfl
      | cellSeg len cells => simp

theorem setChar_heapAt_self (s : SegManager) (ref : SegmentRef) (j v : Nat)
    (len : Nat) (cells : Nat → Reg) (h : s.heapAt ref.seg = some (.cellSeg len cells)) :
    (s.setChar ref j v).heapAt ref.seg
      = some (.cellSeg len (updCell cells
          (ref.base + (if ref.skipByte then j + 1 else j) / 2)
          { segment := 0,
            offset :=
              if (if ref.skipByte then j + 1 else j) % 2 = 1 then
                (cells (ref.base + (if ref.skipByte then j + 1 else j) / 2)).offset % 65536 % 256
                  + v % 256 * 256
              else
                (cells (ref.base + (if ref.skipByte then j + 1 else j) / 2)).offset % 65536 / 256 * 256
                  + v % 256 })) := by
  have hlt : ref.seg < s.heap.length := heapAt_some_lt s ref.seg _ h
  unfold SegManager.setChar SegManager.setCellAt SegManager.cellAt
  rw [h]
  simp only [SegManager.heapAt]
  rw [listGetD_set_eq none _ s.heap ref.seg hlt]

theorem getChar_of_cell (s : SegManager) (ref : SegmentRef) (j : Nat)
    (len : Nat) (cells : Nat → Reg) (h : s.heapAt ref.seg = some (.cellSeg len cells)) :
    s.getChar ref j
      = (if (if ref.skipByte then j + 1 else j) % 2 = 1 then
          (cells (ref.base + (if ref.skipByte then j + 1 else j) / 2)).offset % 65536 / 256
        else
          (cells (ref.base + (if ref.skipByte then j + 1 else j) / 2)).offset % 256) := by
  unfold SegManager.getChar SegManager.cellAt
  rw [h]

theorem updCell_self (f : Nat → Reg) (i : Nat) (v : Reg) : updCell f i v i = v := by
  simp [updCell]

theorem updCell_ne (f : Nat → Reg) (i k : Nat) (v : Reg) (h : k ≠ i) :
    updCell f i v k = f k := by
  simp [updCell, h]

theorem updFn_self (f : Nat → Nat) (i v : Nat) : updFn f i v i = v := by
  simp [updFn]

theorem updFn_ne (f : Nat → Nat) (i k v : Nat) (h : k ≠ i) : updFn f i v k = f k := by
  simp [updFn, h]

theorem getChar_setChar_self (s : SegManager) (ref : SegmentRef) (j v : Nat)
    (len : Nat) (cells : Nat → Reg) (h : s.heapAt ref.seg = some (.cellSeg len cells)) :
    (s.setChar ref j v).getChar ref j = v % 256 := by
  rw [getChar_of_cell (s.setChar ref j v) ref j len _ (setChar_heapAt_self s ref j v len cells h)]
  rw [updCell_self]
  dsimp only
  by_cases hp : (if ref.skipByte then j + 1 else j) % 2 = 1
  · rw [if_pos hp, if_pos hp]
    omega
  · rw [if_neg hp, if_neg hp]
    omega

theorem getChar_setChar_ne (s : SegManager) (ref : SegmentRef) (j j' v : Nat)
    (hne : j ≠ j') :
    (s.setChar ref j v).getChar ref j' = s.getChar ref j' := by
  cases hh : s.heapAt ref.seg with
  | none =>
      have hfix : s.setChar ref j v = s := by
        unfold SegManager.setChar SegManager.setCellAt
        rw [hh]
      rw [hfix]
  | some o =>
      cases o with
      | dynMem len f =>
          have hfix : s.setChar ref j v = s := by
            unfold SegManager.setChar SegManager.setCellAt
            rw [hh]
          rw [hfix]
      | script sc =>
          have hfix : s.setChar ref j v = s := by
            unfold SegManager.setChar SegManager.setCellAt
            rw [hh]
          rw [hfix]
      | cellSeg len cells =>
          rw [getChar_of_cell _ ref j' len _ (setChar_heapAt_self s ref j v len cells hh),
            getChar_of_cell s ref j' len cells hh]
          have hoffne : (if ref.skipByte then j + 1 else j)
              ≠ (if ref.skipByte then j' + 1 else j') := by
            cases hs : ref.skipByte
            · simpa using hne
            · simpa using hne
          by_cases hcell : ref.base + (if ref.skipByte then j' + 1 else j') / 2
              = ref.base + (if ref.skipByte then j + 1 else j) / 2
          · rw [hcell, updCell_self]
            dsimp only
            have hpar : (if ref.skipByte then j + 1 else j) % 2
                ≠ (if ref.skipByte then j' + 1 else j') % 2 := by omega
            by_cases hp : (if ref.skipByte then j + 1 else j) % 2 = 1
            · have hp' : ¬ (if ref.skipByte then j' + 1 else j') % 2 = 1 := by omega
              rw [if_pos hp, if_neg hp', if_neg hp']
              omega
            · have hp' : (if ref.skipByte then j' + 1 else j') % 2 = 1 := by omega
              rw [if_neg hp, if_pos hp', if_pos hp']
              omega
          · rw [updCell_ne _ _ _ _ hcell]

theorem setRawFnAt_dyn (s : SegManager) (slot : Nat) (f : Nat → Nat)
    (len : Nat) (g : Nat → Nat) (h : s.heapAt slot = some (.dynMem len g)) :
    (s.setRawFnAt slot f).heapAt slot = some (.dynMem len f)
    ∧ (∀ j, j ≠ slot → (s.setRawFnAt slot f).heapAt j = s.heapAt j)
    ∧ (s.setRawFnAt slot f).heap.length = s.heap.length := by
  have hlt : slot < s.heap.length := heapAt_some_lt s slot _ h
  unfold SegManager.setRawFnAt
  rw [h]
  refine ⟨?_, ?_, by simp⟩
  · simp only [SegManager.heapAt]
    rw [listGetD_set_eq none _ s.heap slot hlt]
  · intro j hj
    simp only [SegManager.heapAt]
    exact listGetD_set_ne none _ s.heap slot j (fun e => hj e.symm)

theorem setRawFnAt_script (s : SegManager) (slot : Nat) (f : Nat → Nat)
    (sc : ScriptData) (h : s.heapAt slot = some (.script sc)) :
    (s.setRawFnAt slot f).heapAt slot = some (SegmentObj.script { sc with buf := f })
    ∧ (∀ j, j ≠ slot → (s.setRawFnAt slot f).heapAt j = s.heapAt j)
    ∧ (s.setRawFnAt slot f).heap.length = s.heap.length := by
  have hlt : slot < s.heap.length := heapAt_some_lt s slot _ h
  unfold SegManager.setRawFnAt
  rw [h]
  refine ⟨?_, ?_, by simp⟩
  · simp only [SegManager.heapAt]
    rw [listGetD_set_eq none _ s.heap slot hlt]
  · intro j hj
    simp only [SegManager.heapAt]
    exact listGetD_set_ne none _ s.heap slot j (fun e => hj e.symm)

theorem rawFnAt_of_dyn (s : SegManager) (slot len : Nat) (g : Nat → Nat)
    (h : s.heapAt slot = some (.dynMem len g)) : s.rawFnAt slot = g := by
  unfold SegManager.rawFnAt
  rw [h]

theorem rawFnAt_of_script (s : SegManager) (slot : Nat) (sc : ScriptData)
    (h : s.heapAt slot = some (.script sc)) : s.rawFnAt slot = sc.buf := by
  unfold SegManager.rawFnAt
  rw [h]

theorem dereference_valid_cases (s : SegManager) (p : Reg)
    (h : (s.dereference p).valid = true) :
    p.segment ≠ 0
    ∧ ((∃ len g, s.heapAt p.segment = some (.dynMem len g)
          ∧ s.dereference p
              = SegmentRef.mk true true false (len - p.offset) p.segment p.offset
          ∧ p.offset < len)
      ∨ (∃ sc, s.heapAt p.segment = some (.script sc)
          ∧ s.dereference p
              = SegmentRef.mk true true false (sc.bufLen - p.offset) p.segment p.offset
          ∧ p.offset < sc.bufLen)
      ∨ (∃ len cells, s.heapAt p.segment = some (.cellSeg len cells)
          ∧ s.dereference p
              = SegmentRef.mk true false (p.offset % 2 == 1) (2 * len - p.offset)
                  p.segment (p.offset / 2)
          ∧ p.offset < 2 * len)) := by
  unfold SegManager.dereference at h ⊢
  by_cases hc : p.segment = 0 ∨ s.heap.length ≤ p.segment
  · rw [if_pos hc] at h
    exact absurd h (by simp [invalidRef])
  · rw [if_neg hc] at h ⊢
    push_neg at hc
    refine ⟨hc.1, ?_⟩
    cases hh : s.heapAt p.segment with
    | none =>
        rw [hh] at h
        simp [invalidRef] at h
    | some o =>
        rw [hh] at h
        cases o with
        | dynMem len g =>
            left
            dsimp only [SegmentObj.deref] at h ⊢
            by_cases ho : p.offset < len
            · rw [if_pos ho] at h ⊢
              exact ⟨len, g, rfl, rfl, ho⟩
            · rw [if_neg ho] at h
              exact absurd h (by simp [invalidRef])
        | script sc =>
            right; left
            dsimp only [SegmentObj.deref] at h ⊢
            by_cases ho : p.offset < sc.bufLen
            · rw [if_pos ho] at h ⊢
              exact ⟨sc, rfl, rfl, ho⟩
            · rw [if_neg ho] at h
              exact absurd h (by simp [invalidRef])
        | cellSeg len cells =>
            right; right
            dsimp only [SegmentObj.deref] at h ⊢
            by_cases ho : p.offset < 2 * len
            · rw [if_pos ho] at h ⊢
              exact ⟨len, cells, rfl, rfl, ho⟩
            · rw [if_neg ho] at h
              exact absurd h (by simp [invalidRef])

theorem strncpyCellLoop_spec (ref : SegmentRef) (src : Nat → Nat) :
    ∀ (L fuel : Nat) (s : SegManager) (i len : Nat) (cells : Nat → Reg),
      s.heapAt ref.seg = some (.cellSeg len cells) →
      L < fuel →
      (∀ j, j < L → src (i + j) ≠ 0) → src (i + L) = 0 →
      (∀ j, j ≤ L → (strncpyCellLoop ref src fuel s i).getChar ref (i + j)
          = if j = L then 0 else src (i + j) % 256)
      ∧ (∀ p, p < i ∨ i + L < p →
          (strncpyCellLoop ref src fuel s i).getChar ref p = s.getChar ref p)
      ∧ (∀ slot, slot ≠ ref.seg →
          (strncpyCellLoop ref src fuel s i).heapAt slot = s.heapAt slot)
      ∧ (∃ cells2, (strncpyCellLoop ref src fuel s i).heapAt ref.seg
          = some (.cellSeg len cells2))
      ∧ (strncpyCellLoop ref src fuel s i).heap.length = s.heap.length := by
  intro L
  induction L with
  | zero =>
      intro fuel s i len cells hshape hfuel hnz hz
      cases fuel with
      | zero => omega
      | succ f =>
          have hz0 : src i = 0 := by simpa using hz
          have hstep : strncpyCellLoop ref src (f + 1) s i = s.setChar ref i 0 := by
            simp [strncpyCellLoop, hz0]
          rw [hstep]
          refine ⟨?_, ?_, ?_, ?_, setChar_heap_length s ref i 0⟩
          · intro j hj
            have hj0 : j = 0 := by omega
            subst hj0
            rw [if_pos rfl, Nat.add_zero,
              getChar_setChar_self s ref i 0 len cells hshape]
          · intro p hp
            exact getChar_setChar_ne s ref i p 0 (by omega)
          · intro slot hs
            exact setChar_heapAt_other s ref i 0 slot hs
          · exact ⟨_, setChar_heapAt_self s ref i 0 len cells hshape⟩
  | succ m ih =>
      intro fuel s i len cells hshape hfuel hnz hz
      cases fuel with
      | zero => omega
      | succ f =>
          have hnz0 : src i ≠ 0 := by simpa using hnz 0 (by omega)
          have hstep : strncpyCellLoop ref src (f + 1) s i
              = strncpyCellLoop ref src f (s.setChar ref i (src i)) (i + 1) := by
            simp [strncpyCellLoop, hnz0]
          rw [hstep]
          have hshape1 := setChar_heapAt_self s ref i (src i) len cells hshape
          obtain ⟨hA, hB, hC, hD, hE⟩ := ih f (s.setChar ref i (src i)) (i + 1) len _
            hshape1 (by omega)
            (fun j hj => by
              rw [show i + 1 + j = i + (j + 1) by omega]
              exact hnz (j + 1) (by omega))
            (by rw [show i + 1 + m = i + (m + 1) by omega]; exact hz)
          refine ⟨?_, ?_, ?_, hD, by rw [hE, setChar_heap_length]⟩
          · intro j hj
            cases j with
            | zero =>
                rw [if_neg (by omega)]
                simp only [Nat.add_zero]
                rw [hB i (by omega),
                  getChar_setChar_self s ref i (src i) len cells hshape]
            | succ j2 =>
                rw [show i + (j2 + 1) = i + 1 + j2 by omega, hA j2 (by omega)]
                by_cases he : j2 = m
                · rw [if_pos he, if_pos (by omega)]
                · rw [if_neg he, if_neg (by omega)]
          · intro p hp
            rw [hB p (by omega)]
            exact getChar_setChar_ne s ref i p (src i) (by omega)
          · intro slot hs
            rw [hC slot hs, setChar_heapAt_other s ref i (src i) slot hs]

theorem getStringCellLoop_reads (s : SegManager) (ref : SegmentRef) :
    ∀ (l : List Nat) (fuel i : Nat),
      (∀ j, j < l.length → s.getChar ref (i + j) = l.getD j 0 ∧ l.getD j 0 ≠ 0) →
      (∀ j, j < l.length → i + j < ref.maxSize) →
      ((i + l.length < ref.maxSize ∧ s.getChar ref (i + l.length) = 0 ∧ l.length < fuel)
        ∨ (i + l.length = ref.maxSize ∧ l.length ≤ fuel)) →
      getStringCellLoop s ref fuel i = l := by
  intro l
  induction l with
  | nil =>
      intro fuel i _ _ hterm
      rcases hterm with ⟨h1, h2, h3⟩ | ⟨h1, _⟩
      · cases fuel with
        | zero => omega
        | succ f =>
            have h1' : i < ref.maxSize := by simpa using h1
            have h2' : s.getChar ref i = 0 := by simpa using h2
            simp [getStringCellLoop, h1', h2']
      · cases fuel with
        | zero => rfl
        | succ f =>
            have hno : ¬ i < ref.maxSize := by simp at h1; omega
            simp [getStringCellLoop, hno]
  | cons a t ih =>
      intro fuel i hv hb hterm
      have ha : s.getChar ref i = a := by
        have := (hv 0 (by simp)).1
        simpa using this
      have hanz : a ≠ 0 := by
        have := (hv 0 (by simp)).2
        simpa using this
      have hilt : i < ref.maxSize := by
        have := hb 0 (by simp)
        simpa using this
      cases fuel with
      | zero =>
          exfalso
          rcases hterm with ⟨_, _, h3⟩ | ⟨_, h2⟩
          · omega
          · simp at h2
      | succ f =>
          have hstep : getStringCellLoop s ref (f + 1) i
              = a :: getStringCellLoop s ref f (i + 1) := by
            simp [getStringCellLoop, hilt, ha, hanz]
          rw [hstep]
          congr 1
          apply ih f (i + 1)
          · intro j hj
            have hh := hv (j + 1) (by simp only [List.length_cons]; omega)
            rw [show i + 1 + j = i + (j + 1) by omega]
            simpa using hh
          · intro j hj
            have hh := hb (j + 1) (by simp only [List.length_cons]; omega)
            omega
          · rcases hterm with ⟨h1, h2, h3⟩ | ⟨h1, h2⟩
            · left
              simp only [List.length_cons] at h1 h2 h3
              refine ⟨by omega, ?_, by omega⟩
              rw [show i + 1 + t.length = i + (t.length + 1) by omega]
              exact h2
            · right
              simp only [List.length_cons] at h1 h2
              exact ⟨by omega, by omega⟩

theorem mkRawState_heapAt (m : Nat) (fill : Nat → Nat) :
    (mkRawState m fill).heapAt 1 = some (.dynMem m fill) := rfl

theorem mkRawState_deref (m off : Nat) (fill : Nat → Nat) (h : off < m) :
    (mkRawState m fill).dereference (Reg.mk 1 off)
      = SegmentRef.mk true true false (m - off) 1 off := by
  unfold SegManager.dereference
  rw [if_neg (by simp [mkRawState])]
  have hh : (mkRawState m fill).heapAt (Reg.mk 1 off).segment
      = some (.dynMem m fill) := rfl
  rw [hh]
  dsimp only [SegmentObj.deref]
  rw [if_pos h]

theorem mkRawState_strcpyChars (m off : Nat) (fill src : Nat → Nat) (h : off < m) :
    (mkRawState m fill).strcpyChars (Reg.mk 1 off) src
      = mkRawState m (forwardCopy true fill src off 0 4294967295) := by
  unfold SegManager.strcpyChars SegManager.strncpyChars
  rw [mkRawState_deref m off fill h]
  dsimp only
  have hraw : (mkRawState m fill).rawFnAt 1 = fill :=
    rawFnAt_of_dyn _ 1 m fill (mkRawState_heapAt m fill)
  rw [hraw]
  unfold SegManager.setRawFnAt
  rw [mkRawState_heapAt]
  simp [mkRawState]

theorem mkCellState_heapAt (mc : Nat) (cells : Nat → Reg) :
    (mkCellState mc cells).heapAt 1 = some (.cellSeg mc cells) := rfl

theorem mkCellState_deref (mc off : Nat) (cells : Nat → Reg) (h : off < 2 * mc) :
    (mkCellState mc cells).dereference (Reg.mk 1 off)
      = SegmentRef.mk true false (off % 2 == 1) (2 * mc - off) 1 (off / 2) := by
  unfold SegManager.dereference
  rw [if_neg (by simp [mkCellState])]
  have hh : (mkCellState mc cells).heapAt (Reg.mk 1 off).segment
      = some (.cellSeg mc cells) := rfl
  rw [hh]
  dsimp only [SegmentObj.deref]
  rw [if_pos h]

theorem mkCellState_strcpyChars (mc off : Nat) (cells : Nat → Reg) (src : Nat → Nat)
    (h : off < 2 * mc) (hmc : mc ≤ 32768) :
    (mkCellState mc cells).strcpyChars (Reg.mk 1 off) src
      = strncpyCellLoop (SegmentRef.mk true false (off % 2 == 1) (2 * mc - off) 1 (off / 2))
          src 4294967295 (mkCellState mc cells) 0 := by
  unfold SegManager.strcpyChars SegManager.strncpyChars
  rw [mkCellState_deref mc off cells h]
  dsimp only
  rw [if_neg (by decide), if_neg (by decide), if_neg (by omega)]

theorem getD_in_facts : ∀ (l : List Nat), (∀ b ∈ l, 0 < b ∧ b < 256) →
    ∀ j, j < l.length → 0 < l.getD j 0 ∧ l.getD j 0 < 256 := by
  intro l
  induction l with
  | nil =>
      intro _ j h
      simp at h
  | cons a t ih =>
      intro hb j hj
      cases j with
      | zero => simpa using hb a (by simp)
      | succ k =>
          simp only [List.getD_cons_succ]
          exact ih (fun b hbm => hb b (by simp [hbm])) k
            (by simp only [List.length_cons] at hj; omega)

/-- C3 counterexample: a raw destination of two bytes receiving a
three-byte string through strcpy_ has its byte just past the maxSize bound
overwritten (7 before, 99 after): the write is not truncated to the
destination bound. -/
theorem C3_cex_strcpy_writes_past_bound :
    ((mkRawState 2 (fun _ => 7)).strcpyChars (Reg.mk 1 0) (ofBytes [97, 98, 99])).rawFnAt
        1 2 = 99
    ∧ (mkRawState 2 (fun _ => 7)).rawFnAt 1 2 = 7 := by
  constructor
  · rfl
  · rfl

/-- C3 (amended). Writing a zero-free string through strcpy_ and reading
back through getString round-trips exactly whenever the string fits
strictly inside the view's maxSize bound, for both raw and non-raw
destinations (covering lengths 0 and 1 when the bound admits them); when
the string does not fit, getString returns exactly the first maxSize
bytes (the read is truncated), but strcpy_ writes the entire source plus
its terminator, continuing past the destination bound instead of
truncating the write. The write-characterization conjuncts describe every
written byte, including those beyond the bound. -/
theorem C3_strcpy_getString_roundtrip (m off : Nat) (fill : Nat → Nat)
    (mc offc : Nat) (cellsInit : Nat → Reg) (l : List Nat)
    (hoff : off < m) (hoffc : offc < 2 * mc) (hmc : mc ≤ 32768)
    (hbytes : ∀ b ∈ l, 0 < b ∧ b < 256) (hlen : l.length < 4294967295) :
    (l.length < m - off →
      ((mkRawState m fill).strcpyChars (Reg.mk 1 off) (ofBytes l)).getString
        (Reg.mk 1 off) = l)
    ∧ (m - off ≤ l.length →
      ((mkRawState m fill).strcpyChars (Reg.mk 1 off) (ofBytes l)).getString
        (Reg.mk 1 off) = l.take (m - off))
    ∧ (∀ j, j ≤ l.length →
      ((mkRawState m fill).strcpyChars (Reg.mk 1 off) (ofBytes l)).rawFnAt 1 (off + j)
        = if j = l.length then 0 else l.getD j 0)
    ∧ (l.length < 2 * mc - offc →
      ((mkCellState mc cellsInit).strcpyChars (Reg.mk 1 offc) (ofBytes l)).getString
        (Reg.mk 1 offc) = l)
    ∧ (2 * mc - offc ≤ l.length →
      ((mkCellState mc cellsInit).strcpyChars (Reg.mk 1 offc) (ofBytes l)).getString
        (Reg.mk 1 offc) = l.take (2 * mc - offc))
    ∧ (∀ j, j ≤ l.length →
      ((mkCellState mc cellsInit).strcpyChars (Reg.mk 1 offc) (ofBytes l)).getChar
          (SegmentRef.mk true false (offc % 2 == 1) (2 * mc - offc) 1 (offc / 2)) j
        = if j = l.length then 0 else l.getD j 0) := by
  have hD := getD_in_facts l hbytes
  have hnzsrc : ∀ j, j < l.length → ofBytes l (0 + j) ≠ 0 := by
    intro j hj
    have := (hD j hj).1
    simp only [ofBytes, Nat.zero_add]
    omega
  have hzsrc : ofBytes l (0 + l.length) = 0 := by
    simp only [ofBytes, Nat.zero_add]
    exact listGetD_ge 0 l l.length (le_refl _)
  -- raw side
  have hfc : forwardCopy true fill (ofBytes l) off 0 4294967295
      = forwardCopyLoop true false (ofBytes l) 4294967295 fill off 0 := rfl
  have hcopy := mkRawState_strcpyChars m off fill (ofBytes l) hoff
  rw [hfc, fcl_string (ofBytes l) l.length 4294967295 fill off 0 hlen hnzsrc hzsrc]
    at hcopy
  set G : Nat → Nat := fun i =>
    if off ≤ i ∧ i < off + l.length then ofBytes l (0 + (i - off))
    else if i = off + l.length then 0 else fill i with hGdef
  have hGin : ∀ j, j < l.length → G (off + j) = l.getD j 0 := by
    intro j hj
    rw [hGdef]
    dsimp only
    rw [if_pos (by omega)]
    simp only [ofBytes]
    congr 1
    omega
  have hGend : G (off + l.length) = 0 := by
    rw [hGdef]
    dsimp only
    rw [if_neg (by omega), if_pos rfl]
  have hGraw : ((mkRawState m fill).strcpyChars (Reg.mk 1 off) (ofBytes l)).rawFnAt 1
      = G := by
    rw [hcopy]
    exact rawFnAt_of_dyn _ 1 m G (mkRawState_heapAt m G)
  have hGstr : ((mkRawState m fill).strcpyChars (Reg.mk 1 off) (ofBytes l)).getString
      (Reg.mk 1 off) = readRawList G off (strnlenAux G off (m - off)) := by
    rw [hcopy]
    unfold SegManager.getString
    rw [if_neg (by simp [Reg.isNull]), mkRawState_deref m off G hoff]
    dsimp only
    rw [if_neg (by decide), if_pos rfl]
    rw [rawFnAt_of_dyn _ 1 m G (mkRawState_heapAt m G)]
  -- cell side preliminaries
  have hcc := mkCellState_strcpyChars mc offc cellsInit (ofBytes l) hoffc hmc
  obtain ⟨hA, hB, hC, hD2, hE⟩ := strncpyCellLoop_spec
    (SegmentRef.mk true false (offc % 2 == 1) (2 * mc - offc) 1 (offc / 2))
    (ofBytes l) l.length 4294967295 (mkCellState mc cellsInit) 0 mc cellsInit
    (mkCellState_heapAt mc cellsInit) hlen hnzsrc hzsrc
  obtain ⟨cells2, hshape2⟩ := hD2
  have hlen2 : (strncpyCellLoop
      (SegmentRef.mk true false (offc % 2 == 1) (2 * mc - offc) 1 (offc / 2))
      (ofBytes l) 4294967295 (mkCellState mc cellsInit) 0).heap.length = 2 := by
    rw [hE]
    rfl
  have hderef2 : (strncpyCellLoop
      (SegmentRef.mk true false (offc % 2 == 1) (2 * mc - offc) 1 (offc / 2))
      (ofBytes l) 4294967295 (mkCellState mc cellsInit) 0).dereference (Reg.mk 1 offc)
      = SegmentRef.mk true false (offc % 2 == 1) (2 * mc - offc) 1 (offc / 2) := by
    unfold SegManager.dereference
    rw [if_neg (by rw [hlen2]; simp)]
    have hseg : (Reg.mk 1 offc).segment = 1 := rfl
    rw [hseg, hshape2]
    dsimp only [SegmentObj.deref]
    rw [if_pos hoffc]
  refine ⟨?_, ?_, ?_, ?_, ?_, ?_⟩
  · intro hfit
    rw [hGstr]
    rw [strnlen_stops G l.length off (m - off) hfit
      (fun j hj => by rw [hGin j hj]; have := hD j hj; omega)
      (by rw [hGend])]
    exact readRawList_recover l G off (fun j hj => hGin j hj) (fun b hb => (hbytes b hb).2)
  · intro hbig
    rw [hGstr]
    rw [strnlen_full G (m - off) off
      (fun j hj => by rw [hGin j (by omega)]; have := hD j (by omega); omega)]
    exact readRawList_prefix (m - off) l G off hbig
      (fun j hj => hGin j (by omega)) (fun b hb => (hbytes b hb).2)
  · intro j hj
    rw [hGraw]
    by_cases he : j = l.length
    · rw [if_pos he, he, hGend]
    · rw [if_neg he, hGin j (by omega)]
  · intro hfit
    rw [hcc]
    unfold SegManager.getString
    rw [if_neg (by simp [Reg.isNull]), hderef2]
    dsimp only
    rw [if_neg (by decide), if_neg (by decide)]
    apply getStringCellLoop_reads
    · intro j hj
      have hv := hA j (by omega)
      rw [if_neg (by omega)] at hv
      simp only [Nat.zero_add] at hv ⊢
      rw [hv]
      simp only [ofBytes]
      have := hD j hj
      constructor
      · rw [Nat.mod_eq_of_lt (by omega)]
      · omega
    · intro j hj
      dsimp only
      omega
    · left
      dsimp only
      have hv := hA l.length (le_refl _)
      rw [if_pos rfl] at hv
      refine ⟨by omega, ?_, by omega⟩
      simpa using hv
  · intro hbig
    rw [hcc]
    unfold SegManager.getString
    rw [if_neg (by simp [Reg.isNull]), hderef2]
    dsimp only
    rw [if_neg (by decide), if_neg (by decide)]
    apply getStringCellLoop_reads
    · intro j hj
      simp only [List.length_take] at hj
      have hjl : j < 2 * mc - offc := by omega
      have hjL : j < l.length := by omega
      have hv := hA j (by omega)
      rw [if_neg (by omega)] at hv
      simp only [Nat.zero_add] at hv ⊢
      rw [hv, listGetD_take 0 (2 * mc - offc) l j hjl]
      simp only [ofBytes]
      have := hD j hjL
      constructor
      · rw [Nat.mod_eq_of_lt (by omega)]
      · omega
    · intro j hj
      simp only [List.length_take] at hj
      dsimp only
      omega
    · right
      dsimp only
      simp only [List.length_take]
      constructor
      · omega
      · omega
  · intro j hj
    rw [hcc]
    have hv := hA j hj
    simp only [Nat.zero_add] at hv
    rw [hv]
    by_cases he : j = l.length
    · rw [if_pos he, if_pos he]
    · rw [if_neg he, if_neg he]
      simp only [ofBytes]
      have := hD j (by omega)
      rw [Nat.mod_eq_of_lt (by omega)]

/-- Witness for C3 at a concrete input. -/
theorem C3_strcpy_getString_roundtrip_w :
    ((mkRawState 4 (fun _ => 7)).strcpyChars (Reg.mk 1 1) (ofBytes [65])).getString
        (Reg.mk 1 1) = [65]
    ∧ ((mkCellState 3 (fun _ => NULL_REG)).strcpyChars (Reg.mk 1 1) (ofBytes [65])).getString
        (Reg.mk 1 1) = [65] :=
  ⟨(C3_strcpy_getString_roundtrip 4 1 (fun _ => 7) 3 1 (fun _ => NULL_REG) [65]
      (by decide) (by decide) (by decide) (by decide) (by decide)).1 (by decide),
   (C3_strcpy_getString_roundtrip 4 1 (fun _ => 7) 3 1 (fun _ => NULL_REG) [65]
      (by decide) (by decide) (by decide) (by decide) (by decide)).2.2.2.1 (by decide)⟩

theorem strcpyChars_empty (s : SegManager) (dest : Reg)
    (hvalid : (s.dereference dest).valid = true) :
    (s.strcpyChars dest (ofBytes [])).readStrByte (s.dereference dest) 0 = 0
    ∧ (s.strcpyChars dest (ofBytes [])).getString dest = [] := by
  obtain ⟨hseg0, hcases⟩ := dereference_valid_cases s dest hvalid
  have hnn : ¬ dest.isNull := fun hnl => hseg0 hnl.1
  have hempty0 : ∀ j : Nat, ofBytes [] j = 0 := fun j => rfl
  rcases hcases with ⟨len, g, hat, href, holt⟩ | ⟨sc, hat, href, holt⟩
    | ⟨len, cells, hat, href, holt⟩
  · -- raw dynamic-memory destination
    have hlt := heapAt_some_lt s dest.segment _ hat
    have hcopy1 : forwardCopy true g (ofBytes []) dest.offset 0 4294967295
        = updFn g dest.offset 0 := by
      have hh : forwardCopy true g (ofBytes []) dest.offset 0 4294967295
          = forwardCopyLoop true false (ofBytes []) 4294967295 g dest.offset 0 := rfl
      rw [hh, fcl_string (ofBytes []) 0 4294967295 g dest.offset 0 (by omega)
        (fun j hj => absurd hj (by omega)) rfl]
      funext i
      by_cases he : i = dest.offset
      · subst he
        rw [if_neg (by omega), if_pos (by omega), updFn_self]
      · rw [if_neg (by omega), if_neg (by omega), updFn_ne g dest.offset i 0 he]
    have hred : s.strcpyChars dest (ofBytes [])
        = s.setRawFnAt dest.segment (updFn g dest.offset 0) := by
      unfold SegManager.strcpyChars SegManager.strncpyChars
      rw [href]
      dsimp only
      rw [if_neg (by decide), if_pos rfl, rawFnAt_of_dyn s dest.segment len g hat, hcopy1]
    obtain ⟨hat', hfr', hlen'⟩ :=
      setRawFnAt_dyn s dest.segment (updFn g dest.offset 0) len g hat
    have hraw' : (s.setRawFnAt dest.segment (updFn g dest.offset 0)).rawFnAt dest.segment
        = updFn g dest.offset 0 := rawFnAt_of_dyn _ dest.segment len _ hat'
    have hd2 : (s.setRawFnAt dest.segment (updFn g dest.offset 0)).dereference dest
        = SegmentRef.mk true true false (len - dest.offset) dest.segment dest.offset := by
      unfold SegManager.dereference
      rw [if_neg (by rw [hlen']; intro hor; rcases hor with h | h; exact hseg0 h; omega)]
      rw [hat']
      dsimp only [SegmentObj.deref]
      rw [if_pos holt]
    constructor
    · rw [hred, href]
      unfold SegManager.readStrByte
      rw [if_pos rfl]
      dsimp only
      rw [hraw', Nat.add_zero, updFn_self]
    · rw [hred]
      unfold SegManager.getString
      rw [if_neg hnn, hd2]
      dsimp only
      rw [if_neg (by decide), if_pos rfl, hraw']
      have hms : len - dest.offset = (len - dest.offset - 1) + 1 := by omega
      rw [hms]
      unfold strnlenAux
      rw [updFn_self]
      simp [readRawList]
  · -- raw script destination
    have hlt := heapAt_some_lt s dest.segment _ hat
    have hcopy1 : forwardCopy true sc.buf (ofBytes []) dest.offset 0 4294967295
        = updFn sc.buf dest.offset 0 := by
      have hh : forwardCopy true sc.buf (ofBytes []) dest.offset 0 4294967295
          = forwardCopyLoop true false (ofBytes []) 4294967295 sc.buf dest.offset 0 := rfl
      rw [hh, fcl_string (ofBytes []) 0 4294967295 sc.buf dest.offset 0 (by omega)
        (fun j hj => absurd hj (by omega)) rfl]
      funext i
      by_cases he : i = dest.offset
      · subst he
        rw [if_neg (by omega), if_pos (by omega), updFn_self]
      · rw [if_neg (by omega), if_neg (by omega), updFn_ne sc.buf dest.offset i 0 he]
    have hred : s.strcpyChars dest (ofBytes [])
        = s.setRawFnAt dest.segment (updFn sc.buf dest.offset 0) := by
      unfold SegManager.strcpyChars SegManager.strncpyChars
      rw [href]
      dsimp only
      rw [if_neg (by decide), if_pos rfl, rawFnAt_of_script s dest.segment sc hat, hcopy1]
    obtain ⟨hat', hfr', hlen'⟩ :=
      setRawFnAt_script s dest.segment (updFn sc.buf dest.offset 0) sc hat
    have hraw' : (s.setRawFnAt dest.segment (updFn sc.buf dest.offset 0)).rawFnAt dest.segment
        = updFn sc.buf dest.offset 0 := rawFnAt_of_script _ dest.segment _ hat'
    have hd2 : (s.setRawFnAt dest.segment (updFn sc.buf dest.offset 0)).dereference dest
        = SegmentRef.mk true true false (sc.bufLen - dest.offset) dest.segment dest.offset := by
      unfold SegManager.dereference
      rw [if_neg (by rw [hlen']; intro hor; rcases hor with h | h; exact hseg0 h; omega)]
      rw [hat']
      dsimp only [SegmentObj.deref]
      rw [if_pos holt]
    constructor
    · rw [hred, href]
      unfold SegManager.readStrByte
      rw [if_pos rfl]
      dsimp only
      rw [hraw', Nat.add_zero, updFn_self]
    · rw [hred]
      unfold SegManager.getString
      rw [if_neg hnn, hd2]
      dsimp only
      rw [if_neg (by decide), if_pos rfl, hraw']
      have hms : sc.bufLen - dest.offset = (sc.bufLen - dest.offset - 1) + 1 := by omega
      rw [hms]
      unfold strnlenAux
      rw [updFn_self]
      simp [readRawList]
  · -- cell-addressed destination
    have hlt := heapAt_some_lt s dest.segment _ hat
    have hsg : (s.dereference dest).seg = dest.segment := by rw [href]
    obtain ⟨hA, hB, hC, hD2, hE⟩ := strncpyCellLoop_spec (s.dereference dest)
      (ofBytes []) 0 4294967295 s 0 len cells (by rw [hsg]; exact hat) (by omega)
      (fun j hj => absurd hj (by omega)) rfl
    have hred : s.strcpyChars dest (ofBytes [])
        = (if 4294967295 < (s.dereference dest).maxSize then
            (strncpyCellLoop (s.dereference dest) (ofBytes []) 4294967295 s 0).setChar
              (s.dereference dest) 4294967295 0
          else strncpyCellLoop (s.dereference dest) (ofBytes []) 4294967295 s 0) := by
      unfold SegManager.strcpyChars SegManager.strncpyChars
      dsimp only
      rw [hvalid]
      rw [if_neg (by decide)]
      have hnr : (s.dereference dest).isRaw = false := by rw [href]
      rw [hnr]
      rw [if_neg (by decide)]
    have hgc : (s.strcpyChars dest (ofBytes [])).getChar (s.dereference dest) 0 = 0 := by
      rw [hred]
      by_cases hbig : 4294967295 < (s.dereference dest).maxSize
      · rw [if_pos hbig, getChar_setChar_ne _ _ _ _ _ (by omega)]
        have := hA 0 (le_refl _)
        simpa using this
      · rw [if_neg hbig]
        have := hA 0 (le_refl _)
        simpa using this
    obtain ⟨cells2, hshape2⟩ := hD2
    have hshapeT : ∃ cells3, (s.strcpyChars dest (ofBytes [])).heapAt dest.segment
        = some (.cellSeg len cells3) := by
      rw [hred, ← hsg]
      by_cases hbig : 4294967295 < (s.dereference dest).maxSize
      · rw [if_pos hbig]
        exact ⟨_, setChar_heapAt_self _ _ _ _ len cells2 hshape2⟩
      · rw [if_neg hbig]
        exact ⟨cells2, hshape2⟩
    have hlenT : (s.strcpyChars dest (ofBytes [])).heap.length = s.heap.length := by
      rw [hred]
      by_cases hbig : 4294967295 < (s.dereference dest).maxSize
      · rw [if_pos hbig, setChar_heap_length, hE]
      · rw [if_neg hbig, hE]
    obtain ⟨cells3, hshape3⟩ := hshapeT
    have hd2 : (s.strcpyChars dest (ofBytes [])).dereference dest
        = SegmentRef.mk true false (dest.offset % 2 == 1) (2 * len - dest.offset)
            dest.segment (dest.offset / 2) := by
      unfold SegManager.dereference
      rw [if_neg (by rw [hlenT]; intro hor; rcases hor with h | h; exact hseg0 h; omega)]
      rw [hshape3]
      dsimp only [SegmentObj.deref]
      rw [if_pos holt]
    constructor
    · unfold SegManager.readStrByte
      have hnr : (s.dereference dest).isRaw = false := by rw [href]
      rw [hnr]
      rw [if_neg (by decide)]
      exact hgc
    · unfold SegManager.getString
      rw [if_neg hnn, hd2]
      dsimp only
      rw [if_neg (by decide), if_neg (by decide)]
      apply getStringCellLoop_reads _ _ ([] : List Nat)
      · intro j hj
        simp at hj
      · intro j hj
        simp at hj
      · left
        dsimp only
        refine ⟨by simp only [List.length_nil]; omega, ?_,
          by simp only [List.length_nil]; omega⟩
        have hgc2 := hgc
        rw [href] at hgc2
        simpa using hgc2

/-- C10. The pointer-to-pointer strncpy with a null or unresolvable source
and a positive length does not leave a valid destination untouched: it
writes a terminating zero byte at the destination's first byte position,
so reading the destination back as a string yields the empty string; the
embedding has no fatal path here. -/
theorem C10_strncpy_invalid_source_clears (s : SegManager) (dest src : Reg) (n : Nat)
    (hn : 0 < n) (hvalid : (s.dereference dest).valid = true)
    (hsrc : src.isNull ∨ (s.dereference src).valid = false) :
    (s.strncpyReg dest src n).readStrByte (s.dereference dest) 0 = 0
    ∧ (s.strncpyReg dest src n).getString dest = [] := by
  have hred : s.strncpyReg dest src n = s.strcpyChars dest (ofBytes []) := by
    unfold SegManager.strncpyReg
    by_cases hnull : src.isNull
    · rw [if_pos hnull, if_pos hn]
    · rw [if_neg hnull]
      dsimp only
      rcases hsrc with h | h
      · exact absurd h hnull
      · rw [h, if_pos rfl, if_pos hn]
  rw [hred]
  exact strcpyChars_empty s dest hvalid

/-- Witness for C10 at a concrete input. -/
theorem C10_strncpy_invalid_source_clears_w :
    (sDyn.strncpyReg (Reg.mk 1 0) NULL_REG 5).readStrByte
        (sDyn.dereference (Reg.mk 1 0)) 0 = 0
    ∧ (sDyn.strncpyReg (Reg.mk 1 0) NULL_REG 5).getString (Reg.mk 1 0) = [] :=
  C10_strncpy_invalid_source_clears sDyn (Reg.mk 1 0) NULL_REG 5 (by decide)
    (by decide) (Or.inl (by decide))

theorem getChar_lt (s : SegManager) (ref : SegmentRef) (j : Nat) :
    s.getChar ref j < 256 := by
  unfold SegManager.getChar
  by_cases hp : (if ref.skipByte then j + 1 else j) % 2 = 1
  · rw [if_pos hp]
    omega
  · rw [if_neg hp]
    omega

theorem getChar_setChar_other_ref (s : SegManager) (ref ref2 : SegmentRef)
    (j v q : Nat) (h : ref2.seg ≠ ref.seg) :
    (s.setChar ref j v).getChar ref2 q = s.getChar ref2 q := by
  unfold SegManager.getChar SegManager.cellAt
  rw [setChar_heapAt_other s ref j v ref2.seg h]

theorem intOfSizeT_small (n : Nat) (h : n < 2147483648) : intOfSizeT n = n := by
  unfold intOfSizeT
  have h2 : n % 4294967296 = n := Nat.mod_eq_of_lt (by omega)
  rw [h2, if_pos (by omega)]

theorem cellFromCharsLoop_spec (ref : SegmentRef) (src : Nat → Nat) :
    ∀ (n : Nat) (s : SegManager) (i len : Nat) (cells : Nat → Reg),
      s.heapAt ref.seg = some (.cellSeg len cells) →
      (∀ j, j < n →
        (cellFromCharsLoop ref src n s i).getChar ref (i + j) = src (i + j) % 256)
      ∧ (∀ p, p < i ∨ i + n ≤ p →
        (cellFromCharsLoop ref src n s i).getChar ref p = s.getChar ref p)
      ∧ (∀ slot, slot ≠ ref.seg →
        (cellFromCharsLoop ref src n s i).heapAt slot = s.heapAt slot)
      ∧ (∃ cells2, (cellFromCharsLoop ref src n s i).heapAt ref.seg
          = some (.cellSeg len cells2))
      ∧ (cellFromCharsLoop ref src n s i).heap.length = s.heap.length := by
  intro n
  induction n with
  | zero =>
      intro s i len cells hshape
      exact ⟨fun j hj => absurd hj (by omega), fun p _ => rfl, fun slot _ => rfl,
        ⟨cells, hshape⟩, rfl⟩
  | succ m ih =>
      intro s i len cells hshape
      have hstep : cellFromCharsLoop ref src (m + 1) s i
          = cellFromCharsLoop ref src m (s.setChar ref i (src i)) (i + 1) := by
        simp [cellFromCharsLoop]
      rw [hstep]
      have hshape1 := setChar_heapAt_self s ref i (src i) len cells hshape
      obtain ⟨hA, hB, hC, hD, hE⟩ := ih (s.setChar ref i (src i)) (i + 1) len _ hshape1
      refine ⟨?_, ?_, ?_, hD, by rw [hE, setChar_heap_length]⟩
      · intro j hj
        cases j with
        | zero =>
            simp only [Nat.add_zero]
            rw [hB i (by omega), getChar_setChar_self s ref i (src i) len cells hshape]
        | succ t =>
            rw [show i + (t + 1) = i + 1 + t by omega, hA t (by omega)]
      · intro p hp
        rw [hB p (by omega)]
        exact getChar_setChar_ne s ref i p (src i) (by omega)
      · intro slot hs
        rw [hC slot hs, setChar_heapAt_other s ref i (src i) slot hs]

theorem charsFromCellLoop_spec (s : SegManager) (src_r : SegmentRef) (dbase : Nat) :
    ∀ (n : Nat) (destf : Nat → Nat) (i : Nat),
      charsFromCellLoop s src_r dbase n destf i
        = fun k => if dbase + i ≤ k ∧ k < dbase + i + n
            then s.getChar src_r (k - dbase) else destf k := by
  intro n
  induction n with
  | zero =>
      intro destf i
      funext k
      rw [if_neg (by omega)]
      rfl
  | succ m ih =>
      intro destf i
      have hstep : charsFromCellLoop s src_r dbase (m + 1) destf i
          = charsFromCellLoop s src_r dbase m
              (updFn destf (dbase + i) (s.getChar src_r i)) (i + 1) := by
        simp [charsFromCellLoop]
      rw [hstep, ih]
      funext k
      by_cases h1 : dbase + (i + 1) ≤ k ∧ k < dbase + (i + 1) + m
      · rw [if_pos h1, if_pos (by omega)]
      · rw [if_neg h1]
        by_cases h2 : k = dbase + i
        · subst h2
          rw [if_pos (by omega), updFn_self]
          congr 1
          omega
        · rw [if_neg (by omega), updFn_ne destf (dbase + i) k _ h2]

theorem cellFromCellNLoop_spec (src_r dest_r : SegmentRef)
    (hne : src_r.seg ≠ dest_r.seg) :
    ∀ (n : Nat) (s : SegManager) (i len : Nat) (cells : Nat → Reg),
      s.heapAt dest_r.seg = some (.cellSeg len cells) →
      (∀ j, j < n → (cellFromCellNLoop src_r dest_r n s i).getChar dest_r (i + j)
          = s.getChar src_r (i + j))
      ∧ (∀ p, p < i ∨ i + n ≤ p →
        (cellFromCellNLoop src_r dest_r n s i).getChar dest_r p = s.getChar dest_r p)
      ∧ (∀ slot, slot ≠ dest_r.seg →
        (cellFromCellNLoop src_r dest_r n s i).heapAt slot = s.heapAt slot)
      ∧ (∃ cells2, (cellFromCellNLoop src_r dest_r n s i).heapAt dest_r.seg
          = some (.cellSeg len cells2))
      ∧ (cellFromCellNLoop src_r dest_r n s i).heap.length = s.heap.length := by
  intro n
  induction n with
  | zero =>
      intro s i len cells hshape
      exact ⟨fun j hj => absurd hj (by omega), fun p _ => rfl, fun slot _ => rfl,
        ⟨cells, hshape⟩, rfl⟩
  | succ m ih =>
      intro s i len cells hshape
      have hstep : cellFromCellNLoop src_r dest_r (m + 1) s i
          = cellFromCellNLoop src_r dest_r m
              (s.setChar dest_r i (s.getChar src_r i)) (i + 1) := by
        simp [cellFromCellNLoop]
      rw [hstep]
      have hshape1 := setChar_heapAt_self s dest_r i (s.getChar src_r i) len cells hshape
      obtain ⟨hA, hB, hC, hD, hE⟩ :=
        ih (s.setChar dest_r i (s.getChar src_r i)) (i + 1) len _ hshape1
      have hsrcfr : ∀ q, (s.setChar dest_r i (s.getChar src_r i)).getChar src_r q
          = s.getChar src_r q :=
        fun q => getChar_setChar_other_ref s dest_r src_r i _ q hne
      refine ⟨?_, ?_, ?_, hD, by rw [hE, setChar_heap_length]⟩
      · intro j hj
        cases j with
        | zero =>
            simp only [Nat.add_zero]
            rw [hB i (by omega),
              getChar_setChar_self s dest_r i (s.getChar src_r i) len cells hshape,
              Nat.mod_eq_of_lt (getChar_lt s src_r i)]
        | succ t =>
            rw [show i + (t + 1) = i + 1 + t by omega, hA t (by omega),
              hsrcfr (i + 1 + t)]
      · intro p hp
        rw [hB p (by omega)]
        exact getChar_setChar_ne s dest_r i p _ (by omega)
      · intro slot hs
        rw [hC slot hs, setChar_heapAt_other s dest_r i _ slot hs]

theorem raw_view_facts (s : SegManager) (p : Reg)
    (hv : (s.dereference p).valid = true) (hr : (s.dereference p).isRaw = true) :
    (s.dereference p).seg = p.segment
    ∧ (s.dereference p).base = p.offset
    ∧ ((∃ len g, s.heapAt p.segment = some (.dynMem len g))
        ∨ (∃ sc, s.heapAt p.segment = some (.script sc))) := by
  obtain ⟨_, hcases⟩ := dereference_valid_cases s p hv
  rcases hcases with ⟨len, g, hat, href, _⟩ | ⟨sc, hat, href, _⟩ | ⟨len, cells, _, href, _⟩
  · exact ⟨by rw [href], by rw [href], Or.inl ⟨len, g, hat⟩⟩
  · exact ⟨by rw [href], by rw [href], Or.inr ⟨sc, hat⟩⟩
  · rw [href] at hr
    simp at hr

theorem cell_view_facts (s : SegManager) (p : Reg)
    (hv : (s.dereference p).valid = true) (hr : (s.dereference p).isRaw = false) :
    (s.dereference p).seg = p.segment
    ∧ ∃ len cells, s.heapAt p.segment = some (.cellSeg len cells) := by
  obtain ⟨_, hcases⟩ := dereference_valid_cases s p hv
  rcases hcases with ⟨len, g, hat, href, _⟩ | ⟨sc, hat, href, _⟩ | ⟨len, cells, hat, href, _⟩
  · rw [href] at hr
    simp at hr
  · rw [href] at hr
    simp at hr
  · exact ⟨by rw [href], len, cells, hat⟩

theorem rawFnAt_setRawFnAt (s : SegManager) (slot : Nat) (f : Nat → Nat)
    (h : (∃ len g, s.heapAt slot = some (.dynMem len g))
        ∨ (∃ sc, s.heapAt slot = some (.script sc))) :
    (s.setRawFnAt slot f).rawFnAt slot = f
    ∧ (∀ j, j ≠ slot → (s.setRawFnAt slot f).heapAt j = s.heapAt j)
    ∧ (s.setRawFnAt slot f).heap.length = s.heap.length := by
  rcases h with ⟨len, g, hat⟩ | ⟨sc, hat⟩
  · obtain ⟨h1, h2, h3⟩ := setRawFnAt_dyn s slot f len g hat
    exact ⟨rawFnAt_of_dyn _ slot len f h1, h2, h3⟩
  · obtain ⟨h1, h2, h3⟩ := setRawFnAt_script s slot f sc hat
    exact ⟨rawFnAt_of_script _ slot _ h1, h2, h3⟩

theorem rawFnAt_congr (t s : SegManager) (slot : Nat)
    (h : t.heapAt slot = s.heapAt slot) : t.rawFnAt slot = s.rawFnAt slot := by
  unfold SegManager.rawFnAt
  rw [h]

theorem getChar_congr (t s : SegManager) (ref : SegmentRef) (q : Nat)
    (h : t.heapAt ref.seg = s.heapAt ref.seg) : t.getChar ref q = s.getChar ref q := by
  unfold SegManager.getChar SegManager.cellAt
  rw [h]

theorem readStrByte_congr (t s : SegManager) (ref : SegmentRef) (j : Nat)
    (h : t.heapAt ref.seg = s.heapAt ref.seg) :
    t.readStrByte ref j = s.readStrByte ref j := by
  unfold SegManager.readStrByte
  rw [rawFnAt_congr t s ref.seg h, getChar_congr t s ref j h]

/-- C8 (amended). For lengths n below 2^31 (whose conversion to int is
value-preserving), bulk byte copy between tagged pointers refuses and
leaves the state completely unchanged whenever n exceeds either
endpoint's maxSize bound; when both bounds are respected (and the
endpoints live in different segments), it copies exactly n bytes — every
byte value, zero bytes included, with no termination semantics — leaving
the destination beyond n and the whole source untouched. For n at or
above 2^31 the int cast of the bound check turns negative and the refusal
fails (see the counterexample). -/
theorem C8_memcpy_bounds (s : SegManager) (dest src : Reg) (n : Nat)
    (hn31 : n < 2147483648)
    (hdv : (s.dereference dest).valid = true)
    (hsv : (s.dereference src).valid = true) :
    (((s.dereference dest).maxSize < n ∨ (s.dereference src).maxSize < n) →
      s.memcpyReg dest src n = s)
    ∧ (n ≤ (s.dereference dest).maxSize → n ≤ (s.dereference src).maxSize →
       (s.dereference dest).seg ≠ (s.dereference src).seg →
       (∀ j, j < n → (s.memcpyReg dest src n).readStrByte (s.dereference dest) j
           = s.readStrByte (s.dereference src) j)
       ∧ (∀ j, n ≤ j → (s.memcpyReg dest src n).readStrByte (s.dereference dest) j
           = s.readStrByte (s.dereference dest) j)
       ∧ (∀ j, (s.memcpyReg dest src n).readStrByte (s.dereference src) j
           = s.readStrByte (s.dereference src) j)) := by
  constructor
  · intro hexceed
    unfold SegManager.memcpyReg
    dsimp only
    rw [hdv, if_neg (by decide), intOfSizeT_small n hn31]
    by_cases hd : (s.dereference dest).maxSize < n
    · rw [if_pos (by exact_mod_cast hd)]
    · rw [if_neg (by push_neg at hd ⊢; exact_mod_cast hd), hsv, if_neg (by decide)]
      have hs2 : (s.dereference src).maxSize < n := by
        rcases hexceed with h | h
        · omega
        · exact h
      rw [if_pos (by exact_mod_cast hs2)]
  · intro hnd hns hsegne
    have hred : s.memcpyReg dest src n
        = (if (s.dereference src).isRaw = true then
            s.memcpyChars dest
              (fun i => s.rawFnAt (s.dereference src).seg ((s.dereference src).base + i)) n
          else if (s.dereference dest).isRaw = true then
            s.setRawFnAt (s.dereference dest).seg
              (s.memcpyToChars (s.rawFnAt (s.dereference dest).seg)
                (s.dereference dest).base src n)
          else cellFromCellNLoop (s.dereference src) (s.dereference dest) n s 0) := by
      unfold SegManager.memcpyReg
      dsimp only
      rw [hdv, if_neg (by decide), intOfSizeT_small n hn31,
        if_neg (by push_neg; exact_mod_cast hnd), hsv, if_neg (by decide),
        if_neg (by push_neg; exact_mod_cast hns)]
    have hchred : ∀ srcf : Nat → Nat, s.memcpyChars dest srcf n
        = (if (s.dereference dest).isRaw = true then
            s.setRawFnAt (s.dereference dest).seg
              (forwardCopy false (s.rawFnAt (s.dereference dest).seg) srcf
                (s.dereference dest).base 0 n)
          else cellFromCharsLoop (s.dereference dest) srcf n s 0) := by
      intro srcf
      unfold SegManager.memcpyChars
      dsimp only
      rw [hdv, if_neg (by decide), intOfSizeT_small n hn31,
        if_neg (by push_neg; exact_mod_cast hnd)]
    have htcred : ∀ destf : Nat → Nat, ∀ db : Nat,
        (s.dereference src).isRaw = false →
        s.memcpyToChars destf db src n
          = charsFromCellLoop s (s.dereference src) db n destf 0 := by
      intro destf db hsr
      unfold SegManager.memcpyToChars
      dsimp only
      rw [hsv, if_neg (by decide), intOfSizeT_small n hn31,
        if_neg (by push_neg; exact_mod_cast hns), hsr, if_neg (by decide)]
    have hfc : ∀ (A B : Nat → Nat) (d : Nat),
        forwardCopy false A B d 0 n = forwardCopyLoop false false B n A d 0 := by
      intro A B d
      rfl
    by_cases hsr : (s.dereference src).isRaw = true
    · -- raw source: readStrByte of the source is a raw byte
      have hsrcbyte : ∀ j, s.readStrByte (s.dereference src) j
          = s.rawFnAt (s.dereference src).seg ((s.dereference src).base + j) % 256 := by
        intro j
        unfold SegManager.readStrByte
        rw [hsr, if_pos rfl]
      rw [hred, if_pos hsr, hchred]
      by_cases hdr : (s.dereference dest).isRaw = true
      · -- raw to raw
        rw [if_pos hdr, hfc, fcl_nostring]
        obtain ⟨hdseg, hdbase, hdslot⟩ := raw_view_facts s dest hdv hdr
        obtain ⟨hput, hfr, _⟩ := rawFnAt_setRawFnAt s (s.dereference dest).seg _
          (by rw [hdseg]; exact hdslot)
        have hdestbyte : ∀ t : SegManager, ∀ j,
            t.readStrByte (s.dereference dest) j
              = t.rawFnAt (s.dereference dest).seg ((s.dereference dest).base + j) % 256 := by
          intro t j
          unfold SegManager.readStrByte
          rw [hdr, if_pos rfl]
        refine ⟨?_, ?_, ?_⟩
        · intro j hj
          rw [hdestbyte, hput, hsrcbyte]
          rw [if_pos (by omega)]
          congr 2
          omega
        · intro j hj
          rw [hdestbyte, hput, hdestbyte]
          dsimp only
          rw [if_neg (by omega)]
        · intro j
          exact readStrByte_congr _ s (s.dereference src) j
            (hfr _ (fun e => hsegne e.symm))
      · -- raw to cell
        have hdr' : (s.dereference dest).isRaw = false := by
          cases hh : (s.dereference dest).isRaw
          · rfl
          · exact absurd hh hdr
        rw [if_neg hdr]
        obtain ⟨hdseg, len, cells, hat⟩ := cell_view_facts s dest hdv hdr'
        obtain ⟨hA, hB, hC, _, _⟩ := cellFromCharsLoop_spec (s.dereference dest)
          (fun i => s.rawFnAt (s.dereference src).seg ((s.dereference src).base + i))
          n s 0 len cells (by rw [hdseg]; exact hat)
        have hdestbyte : ∀ t : SegManager, ∀ j,
            t.readStrByte (s.dereference dest) j = t.getChar (s.dereference dest) j := by
          intro t j
          unfold SegManager.readStrByte
          rw [hdr', if_neg (by decide)]
        refine ⟨?_, ?_, ?_⟩
        · intro j hj
          rw [hdestbyte, hsrcbyte]
          have := hA j hj
          simpa using this
        · intro j hj
          rw [hdestbyte, hdestbyte]
          have := hB j (by omega)
          simpa using this
        · intro j
          exact readStrByte_congr _ s (s.dereference src) j
            (hC _ (fun e => hsegne e.symm))
    · -- cell source
      have hsr' : (s.dereference src).isRaw = false := by
        cases hh : (s.dereference src).isRaw
        · rfl
        · exact absurd hh hsr
      have hsrcbyte : ∀ j, s.readStrByte (s.dereference src) j
          = s.getChar (s.dereference src) j := by
        intro j
        unfold SegManager.readStrByte
        rw [hsr', if_neg (by decide)]
      rw [hred, if_neg hsr]
      by_cases hdr : (s.dereference dest).isRaw = true
      · -- cell to raw
        rw [if_pos hdr, htcred _ _ hsr', charsFromCellLoop_spec]
        obtain ⟨hdseg, hdbase, hdslot⟩ := raw_view_facts s dest hdv hdr
        obtain ⟨hput, hfr, _⟩ := rawFnAt_setRawFnAt s (s.dereference dest).seg _
          (by rw [hdseg]; exact hdslot)
        have hdestbyte : ∀ t : SegManager, ∀ j,
            t.readStrByte (s.dereference dest) j
              = t.rawFnAt (s.dereference dest).seg ((s.dereference dest).base + j) % 256 := by
          intro t j
          unfold SegManager.readStrByte
          rw [hdr, if_pos rfl]
        refine ⟨?_, ?_, ?_⟩
        · intro j hj
          rw [hdestbyte, hput, hsrcbyte]
          rw [if_pos (by omega)]
          rw [show (s.dereference dest).base + j - (s.dereference dest).base = j by omega]
          exact Nat.mod_eq_of_lt (getChar_lt s (s.dereference src) j)
        · intro j hj
          rw [hdestbyte, hput, hdestbyte]
          dsimp only
          rw [if_neg (by omega)]
        · intro j
          exact readStrByte_congr _ s (s.dereference src) j
            (hfr _ (fun e => hsegne e.symm))
      · -- cell to cell
        have hdr' : (s.dereference dest).isRaw = false := by
          cases hh : (s.dereference dest).isRaw
          · rfl
          · exact absurd hh hdr
        rw [if_neg hdr]
        obtain ⟨hdseg, len, cells, hat⟩ := cell_view_facts s dest hdv hdr'
        obtain ⟨hA, hB, hC, _, _⟩ := cellFromCellNLoop_spec (s.dereference src)
          (s.dereference dest) (fun e => hsegne e.symm) n s 0 len cells
          (by rw [hdseg]; exact hat)
        have hdestbyte : ∀ t : SegManager, ∀ j,
            t.readStrByte (s.dereference dest) j = t.getChar (s.dereference dest) j := by
          intro t j
          unfold SegManager.readStrByte
          rw [hdr', if_neg (by decide)]
        refine ⟨?_, ?_, ?_⟩
        · intro j hj
          rw [hdestbyte, hsrcbyte]
          have := hA j hj
          simpa using this
        · intro j hj
          rw [hdestbyte, hdestbyte]
          have := hB j (by omega)
          simpa using this
        · intro j
          exact readStrByte_congr _ s (s.dereference src) j
            (hC _ (fun e => hsegne e.symm))

/-- C8 counterexample: with length 2^31 the int cast of the bound check
turns negative, the refusal is bypassed, and the copy overwrites the
destination byte just past its maxSize bound of 4 (7 before, 9 after),
contradicting the claim that any length exceeding a bound is refused with
both endpoints unchanged. -/
theorem C8_cex_int_cast_bypass :
    (sC8.memcpyReg (Reg.mk 1 0) (Reg.mk 2 0) 2147483648).rawFnAt 1 4 = 9
    ∧ sC8.rawFnAt 1 4 = 7 := by
  refine ⟨?_, rfl⟩
  have hd : sC8.dereference (Reg.mk 1 0) = SegmentRef.mk true true false 4 1 0 := rfl
  have hs : sC8.dereference (Reg.mk 2 0) = SegmentRef.mk true true false 8 2 0 := rfl
  have hred : sC8.memcpyReg (Reg.mk 1 0) (Reg.mk 2 0) 2147483648
      = sC8.setRawFnAt 1 (forwardCopyLoop false false
          (fun i => sC8.rawFnAt 2 (0 + i)) 2147483648 (sC8.rawFnAt 1) 0 0) := by
    unfold SegManager.memcpyReg SegManager.memcpyChars
    dsimp only
    rw [hd, hs]
    dsimp only
    rw [if_neg (by decide), if_neg (by decide), if_neg (by decide), if_neg (by decide),
      if_pos rfl, if_neg (by decide), if_neg (by decide), if_pos rfl]
    rfl
  rw [hred, fcl_nostring (fun i => sC8.rawFnAt 2 (0 + i)) 2147483648 (sC8.rawFnAt 1) 0 0]
  obtain ⟨h1, _, _⟩ := setRawFnAt_dyn sC8 1 _ 4 (fun _ => 7) rfl
  rw [rawFnAt_of_dyn _ 1 4 _ h1]
  rw [if_pos (by omega)]
  rfl

/-- Witness for C8 at concrete inputs: a refused over-long copy leaves the
state unchanged, and an in-bounds copy transports the source bytes. -/
theorem C8_memcpy_bounds_w :
    sC8.memcpyReg (Reg.mk 1 0) (Reg.mk 2 0) 5 = sC8
    ∧ ((∀ j, j < 3 → (sC8.memcpyReg (Reg.mk 1 0) (Reg.mk 2 0) 3).readStrByte
          (sC8.dereference (Reg.mk 1 0)) j
            = sC8.readStrByte (sC8.dereference (Reg.mk 2 0)) j)
      ∧ (∀ j, 3 ≤ j → (sC8.memcpyReg (Reg.mk 1 0) (Reg.mk 2 0) 3).readStrByte
          (sC8.dereference (Reg.mk 1 0)) j
            = sC8.readStrByte (sC8.dereference (Reg.mk 1 0)) j)
      ∧ (∀ j, (sC8.memcpyReg (Reg.mk 1 0) (Reg.mk 2 0) 3).readStrByte
          (sC8.dereference (Reg.mk 2 0)) j
            = sC8.readStrByte (sC8.dereference (Reg.mk 2 0)) j)) :=
  ⟨(C8_memcpy_bounds sC8 (Reg.mk 1 0) (Reg.mk 2 0) 5 (by decide) (by decide)
      (by decide)).1 (Or.inl (by decide)),
   (C8_memcpy_bounds sC8 (Reg.mk 1 0) (Reg.mk 2 0) 3 (by decide) (by decide)
      (by decide)).2 (by decide) (by decide) (by decide)⟩

theorem c5_getIfLoaded (v k : Nat) :
    (c5Loaded v k).getScriptIfLoaded 1 = some (c5Script k) := by
  have hlen : (c5Loaded v k).heap.length = 2 := rfl
  unfold SegManager.getScriptIfLoaded
  rw [getActualSegment_small _ 1 (by omega), if_neg (by rw [hlen]; omega)]
  rfl

theorem c5_inst_first (v : Nat) :
    (c5Base v).instantiateScript 100 = (c5Loaded v 1, 1) := by
  have h1 : (c5Base v).getScriptIfLoaded 0 = none := by
    unfold SegManager.getScriptIfLoaded
    rw [getActualSegment_small _ 0 (by omega)]
    rw [if_pos (Or.inl (by omega))]
  have halloc : (c5Base v).allocateScript 100 =
      (SegManager.mk [none, some (.script ScriptData.new)] [(100, 1)] [] v
        (fun _ => [0, 0, 0, 0]), 1) := rfl
  simp only [SegManager.instantiateScript]
  rw [show (c5Base v).getScriptSegment 100 = 0 from rfl, h1]
  dsimp only
  rw [halloc]
  dsimp only
  rw [getActualSegment_small _ 1 (by omega)]
  rfl

theorem c5_inst_more (v k : Nat) :
    (c5Loaded v k).instantiateScript 100 = (c5Loaded v (k + 1), 1) := by
  have h1 := c5_getIfLoaded v k
  simp only [SegManager.instantiateScript]
  rw [show (c5Loaded v k).getScriptSegment 100 = 1 from rfl, h1]
  dsimp only
  rw [if_pos (show (c5Script k).markedAsDeleted = false from rfl)]
  rw [getActualSegment_small _ 1 (by omega)]
  rfl

theorem c5_iter_inst (v k : Nat) (hk : 1 ≤ k) :
    iterInstantiate 100 k (c5Base v) = c5Loaded v k := by
  obtain ⟨m, rfl⟩ : ∃ m, k = m + 1 := ⟨k - 1, by omega⟩
  clear hk
  induction m with
  | zero =>
      show ((iterInstantiate 100 0 (c5Base v)).instantiateScript 100).1 = c5Loaded v 1
      rw [show iterInstantiate 100 0 (c5Base v) = c5Base v from rfl, c5_inst_first]
  | succ m ih =>
      show ((iterInstantiate 100 (m + 1) (c5Base v)).instantiateScript 100).1
        = c5Loaded v (m + 1 + 1)
      rw [ih, c5_inst_more]

theorem c5_uninst_dec (v k fuel : Nat) (hk : 2 ≤ k) :
    SegManager.uninstantiateScript (fuel + 1) (c5Loaded v k) 100
      = .ok (c5Loaded v (k - 1)) := by
  have h1 := c5_getIfLoaded v k
  unfold SegManager.uninstantiateScript
  rw [show (c5Loaded v k).getScriptSegment 100 = 1 from rfl]
  dsimp only
  rw [h1]
  dsimp only
  rw [if_neg (show ¬ (c5Script k).markedAsDeleted = true from
    fun h => Bool.noConfusion h)]
  rw [getActualSegment_small _ 1 (by omega)]
  rw [show (c5Loaded v k).modifyScriptAt 1 ScriptData.decrementLockers
      = c5Loaded v (k - 1) from rfl]
  rw [show (c5Loaded v (k - 1)).lockersAt 1 = k - 1 from rfl]
  rw [if_pos (show 0 < k - 1 by omega)]

theorem c5_sci0 (v f : Nat) :
    SegManager.uninstantiateScriptSci0 (f + 2) (c5Loaded v 0) 100
      = .ok (c5Loaded v 0) := by
  show SegManager.uninstantiateScriptSci0 ((f + 1) + 1) (c5Loaded v 0) 100
    = .ok (c5Loaded v 0)
  unfold SegManager.uninstantiateScriptSci0
  rw [show (c5Loaded v 0).getScriptSegment 100 = 1 from rfl]
  dsimp only
  rw [show (c5Loaded v 0).getScriptM 1 = some (c5Script 0) from c5_getIfLoaded v 0]
  dsimp only
  rw [getActualSegment_small _ 1 (by omega)]
  rw [show (c5Loaded v 0).version = v from rfl]
  by_cases h0 : v = SCI_VERSION_0_EARLY
  · rw [if_pos h0]
    rfl
  · rw [if_neg h0]
    rfl

theorem c5_uninst_last (v f : Nat) :
    SegManager.uninstantiateScript (f + 3) (c5Loaded v 1) 100
      = .ok (c5Deleted v) := by
  have h1 := c5_getIfLoaded v 1
  show SegManager.uninstantiateScript ((f + 2) + 1) (c5Loaded v 1) 100
    = .ok (c5Deleted v)
  unfold SegManager.uninstantiateScript
  rw [show (c5Loaded v 1).getScriptSegment 100 = 1 from rfl]
  dsimp only
  rw [h1]
  dsimp only
  rw [if_neg (show ¬ (c5Script 1).markedAsDeleted = true from
    fun h => Bool.noConfusion h)]
  rw [getActualSegment_small _ 1 (by omega)]
  rw [show (c5Loaded v 1).modifyScriptAt 1 ScriptData.decrementLockers
      = c5Loaded v 0 from rfl]
  rw [show (c5Loaded v 0).lockersAt 1 = 0 from rfl]
  rw [if_neg (show ¬ (0 : Nat) < 0 by omega)]
  rw [show (c5Loaded v 0).clearClassRefs 1 = c5Loaded v 0 from rfl]
  rw [show (c5Loaded v 0).version = v from rfl]
  by_cases hv : v < SCI_VERSION_1_1
  · rw [if_pos hv, c5_sci0 v f]
    rfl
  · rw [if_neg hv]
    rfl

theorem uninst_noop (s : SegManager) (nr : Int) (fuel : Nat)
    (h : s.getScriptIfLoaded (s.getScriptSegment nr) = none
        ∨ ∃ scr, s.getScriptIfLoaded (s.getScriptSegment nr) = some scr
            ∧ scr.markedAsDeleted = true) :
    SegManager.uninstantiateScript (fuel + 1) s nr = .ok s := by
  unfold SegManager.uninstantiateScript
  dsimp only
  rcases h with h | ⟨scr, h, hdel⟩
  · rw [h]
  · rw [h]
    dsimp only
    rw [if_pos hdel]

/-- C5: for every engine version, instantiating a script k times and then
uninstantiating it k times leaves it marked deleted with locker count 0;
only k - 1 uninstantiations leave it loaded (not deleted) with locker
count 1; and uninstantiating any script that is not loaded or already
marked deleted is a no-op returning the state unchanged, never an
error. -/
theorem C5_locker_discipline (v k f : Nat) (hk : 1 ≤ k) :
    resultScriptState
        (iterUninstantiate 100 (f + 3) k (iterInstantiate 100 k (c5Base v))) 1
      = some (0, true)
    ∧ resultScriptState
        (iterUninstantiate 100 (f + 3) (k - 1) (iterInstantiate 100 k (c5Base v))) 1
      = some (1, false)
    ∧ ∀ (s : SegManager) (nr : Int),
        (s.getScriptIfLoaded (s.getScriptSegment nr) = none
          ∨ ∃ scr, s.getScriptIfLoaded (s.getScriptSegment nr) = some scr
              ∧ scr.markedAsDeleted = true) →
        SegManager.uninstantiateScript (f + 3) s nr = .ok s := by
  obtain ⟨m, rfl⟩ : ∃ m, k = m + 1 := ⟨k - 1, by omega⟩
  have hinst := c5_iter_inst v (m + 1) hk
  have hiter : ∀ j, j ≤ m →
      iterUninstantiate 100 (f + 3) j (c5Loaded v (m + 1))
        = .ok (c5Loaded v (m + 1 - j)) := by
    intro j
    induction j with
    | zero => exact fun _ => rfl
    | succ j ih =>
        intro hj
        show (iterUninstantiate 100 (f + 3) j (c5Loaded v (m + 1))).bindOk
            (fun s' => SegManager.uninstantiateScript (f + 3) s' 100)
          = .ok (c5Loaded v (m + 1 - (j + 1)))
        rw [ih (by omega)]
        show SegManager.uninstantiateScript (f + 3) (c5Loaded v (m + 1 - j)) 100
          = .ok (c5Loaded v (m + 1 - (j + 1)))
        have h2 : 2 ≤ m + 1 - j := by omega
        exact c5_uninst_dec v (m + 1 - j) (f + 2) h2
  have hm1 : m + 1 - m = 1 := by omega
  refine ⟨?_, ?_, ?_⟩
  · rw [hinst]
    have hk1 : iterUninstantiate 100 (f + 3) (m + 1) (c5Loaded v (m + 1))
        = .ok (c5Deleted v) := by
      show (iterUninstantiate 100 (f + 3) m (c5Loaded v (m + 1))).bindOk
          (fun s' => SegManager.uninstantiateScript (f + 3) s' 100)
        = .ok (c5Deleted v)
      rw [hiter m (le_refl m), hm1]
      show SegManager.uninstantiateScript (f + 3) (c5Loaded v 1) 100
        = .ok (c5Deleted v)
      exact c5_uninst_last v f
    rw [hk1]
    rfl
  · rw [hinst, show m + 1 - 1 = m from rfl, hiter m (le_refl m), hm1]
    rfl
  · intro s nr h
    exact uninst_noop s nr (f + 2) h

/-- Witness for C5 at concrete inputs: two instantiations of script 100
followed by two (resp. one) uninstantiations, and a no-op uninstantiation
of an unloaded script. -/
theorem C5_locker_discipline_w :
    1 ≤ 2
    ∧ resultScriptState
        (iterUninstantiate 100 (0 + 3) 2 (iterInstantiate 100 2 (c5Base 1))) 1
      = some (0, true)
    ∧ resultScriptState
        (iterUninstantiate 100 (0 + 3) (2 - 1) (iterInstantiate 100 2 (c5Base 1))) 1
      = some (1, false)
    ∧ SegManager.uninstantiateScript (0 + 3) sDyn 300 = .ok sDyn :=
  ⟨by decide, (C5_locker_discipline 1 2 0 (by decide)).1,
   (C5_locker_discipline 1 2 0 (by decide)).2.1,
   (C5_locker_discipline 1 2 0 (by decide)).2.2 sDyn 300 (Or.inl rfl)⟩

theorem c6_inst (a : Nat) : (c6Base a).instantiateScript 200 = (c6Loaded a, 2) := rfl

theorem c6_peel (a f : Nat) :
    SegManager.uninstantiateScript (f + 9) (c6Loaded a) 200
      = ((SegManager.uninstantiateScript (f + 6) (c6Dec a) 100).bindOk
          (fun s' => SegManager.uninstWalk (f + 6) s' 200 2 (ofBytes c6BufB)
            (Reg.mk 2 0) 16)).bindOk
          (fun s3 => if s3.lockersAt 2 = 0
            then .ok (s3.modifyScriptAt 2 ScriptData.markDeleted)
            else .ok s3) := rfl

theorem c6_unlockA_one (f : Nat) :
    SegManager.uninstantiateScript (f + 6) (c6Dec 1) 100 = .ok c6ADel := rfl

theorem c6_unlockA_more (a f : Nat) :
    SegManager.uninstantiateScript (f + 6) (c6Dec (a + 2)) 100
      = .ok (c6Dec (a + 1)) := by
  show SegManager.uninstantiateScript ((f + 5) + 1) (c6Dec (a + 2)) 100
    = .ok (c6Dec (a + 1))
  unfold SegManager.uninstantiateScript
  rw [show (c6Dec (a + 2)).getScriptSegment 100 = 1 from rfl]
  dsimp only
  rw [show (c6Dec (a + 2)).getScriptIfLoaded 1
      = some (ScriptData.mk 100 4 (ofBytes [0, 0, 0, 0]) (a + 2) false 0) from rfl]
  dsimp only
  rw [if_neg (show ¬ (ScriptData.mk 100 4 (ofBytes [0, 0, 0, 0]) (a + 2) false
      0).markedAsDeleted = true from fun h => Bool.noConfusion h)]
  rw [show (c6Dec (a + 2)).getActualSegment 1 = 1 from rfl]
  rw [show (c6Dec (a + 2)).modifyScriptAt 1 ScriptData.decrementLockers
      = c6Dec (a + 1) from rfl]
  rw [show (c6Dec (a + 1)).lockersAt 1 = a + 1 from rfl]
  rw [if_pos (show 0 < a + 1 by omega)]

theorem c6_self_peel (m f : Nat) :
    SegManager.uninstantiateScriptSci0 (f + 3) (c6Self m) 200
      = SegManager.uninstWalk (f + 2) (c6Self m) 200 1 (ofBytes c6BufB)
          (Reg.mk 1 0) 0 := rfl

theorem c6_self_step (l f : Nat) :
    SegManager.uninstWalk (f + 2) (c6Self (l + 1)) 200 1 (ofBytes c6BufB)
        (Reg.mk 1 0) 0
      = SegManager.uninstWalk (f + 1) (c6Self l) 200 1 (ofBytes c6BufB)
          (Reg.mk 1 0) 16 := by
  have hl : (c6Self (l + 1)).lockersAt 1 = l + 1 := rfl
  have h1 : SegManager.uninstWalk (f + 2) (c6Self (l + 1)) 200 1 (ofBytes c6BufB)
        (Reg.mk 1 0) 0
      = SegManager.uninstWalk (f + 1)
          (if 0 < (c6Self (l + 1)).lockersAt 1
            then (c6Self (l + 1)).modifyScriptAt 1 ScriptData.decrementLockers
            else c6Self (l + 1)) 200 1 (ofBytes c6BufB) (Reg.mk 1 0) 16 := rfl
  rw [h1, if_pos (show 0 < (c6Self (l + 1)).lockersAt 1 by rw [hl]; omega)]
  rw [show (c6Self (l + 1)).modifyScriptAt 1 ScriptData.decrementLockers
      = c6Self l from rfl]

theorem c6_self_done (l f : Nat) :
    SegManager.uninstWalk (f + 1) (c6Self l) 200 1 (ofBytes c6BufB)
        (Reg.mk 1 0) 16 = .ok (c6Self l) := rfl

/-- C6: in the SCI0 generation, instantiating script B (number 200, whose
class record's superclass is class 0, owned by script A, number 100) and
then fully uninstantiating B reduces A's locker count by exactly one and
marks A deleted exactly when its count reaches 0, even though A was never
directly referenced, while B ends deleted with count 0; and when the
superclass is owned by the script being uninstantiated itself, only that
script's own locker count is decremented (saturating at zero), with no
recursion into any other script. -/
theorem C6_superclass_unlock (a l f : Nat) (ha : 1 ≤ a) :
    resultScriptState
        (SegManager.uninstantiateScript (f + 9)
          ((c6Base a).instantiateScript 200).1 200) 1
      = some (a - 1, a == 1)
    ∧ resultScriptState
        (SegManager.uninstantiateScript (f + 9)
          ((c6Base a).instantiateScript 200).1 200) 2
      = some (0, true)
    ∧ SegManager.uninstantiateScriptSci0 (f + 3) (c6Self l) 200
      = .ok (c6Self (l - 1)) := by
  refine ⟨?_, ?_, ?_⟩
  · rcases a with _ | (_ | a)
    · omega
    · rw [c6_inst 1]
      dsimp only
      rw [c6_peel 1 f, c6_unlockA_one f]
      rfl
    · rw [c6_inst (a + 2)]
      dsimp only
      rw [c6_peel (a + 2) f, c6_unlockA_more a f]
      rfl
  · rcases a with _ | (_ | a)
    · omega
    · rw [c6_inst 1]
      dsimp only
      rw [c6_peel 1 f, c6_unlockA_one f]
      rfl
    · rw [c6_inst (a + 2)]
      dsimp only
      rw [c6_peel (a + 2) f, c6_unlockA_more a f]
      rfl
  · cases l with
    | zero => rfl
    | succ l =>
        rw [c6_self_peel (l + 1) f, c6_self_step l f, c6_self_done l f]
        rfl

/-- Witness for C6 at concrete inputs: A holds one locker, so the
propagated unlock deletes it; the self-superclass run drops one of the
script's own two lockers. -/
theorem C6_superclass_unlock_w :
    1 ≤ 1
    ∧ resultScriptState
        (SegManager.uninstantiateScript (0 + 9)
          ((c6Base 1).instantiateScript 200).1 200) 1
      = some (1 - 1, 1 == 1)
    ∧ resultScriptState
        (SegManager.uninstantiateScript (0 + 9)
          ((c6Base 1).instantiateScript 200).1 200) 2
      = some (0, true)
    ∧ SegManager.uninstantiateScriptSci0 (0 + 3) (c6Self 2) 200
      = .ok (c6Self (2 - 1)) :=
  ⟨by decide, (C6_superclass_unlock 1 2 0 (by decide)).1,
   (C6_superclass_unlock 1 2 0 (by decide)).2.1,
   (C6_superclass_unlock 1 2 0 (by decide)).2.2⟩

theorem c7_pair : ∀ f : Nat,
    SegManager.uninstantiateScript f (c7State 0 0) 100 = RunResult.noFuel
    ∧ SegManager.uninstantiateScript f (c7State 0 0) 200 = RunResult.noFuel := by
  intro f
  induction f using Nat.strong_induction_on with
  | _ f ih =>
    rcases f with _ | (_ | (_ | g))
    · exact ⟨rfl, rfl⟩
    · exact ⟨rfl, rfl⟩
    · exact ⟨rfl, rfl⟩
    · have IH := ih g (by omega)
      constructor
      · have hstep : SegManager.uninstantiateScript (g + 3) (c7State 0 0) 100
            = ((SegManager.uninstantiateScript g (c7State 0 0) 200).bindOk
                (fun s' => SegManager.uninstWalk g s' 100 1 (ofBytes c7BufA)
                  (Reg.mk 1 0) 16)).bindOk
                (fun s3 => if s3.lockersAt 1 = 0
                  then .ok (s3.modifyScriptAt 1 ScriptData.markDeleted)
                  else .ok s3) := rfl
        rw [hstep, IH.2]
        rfl
      · have hstep : SegManager.uninstantiateScript (g + 3) (c7State 0 0) 200
            = ((SegManager.uninstantiateScript g (c7State 0 0) 100).bindOk
                (fun s' => SegManager.uninstWalk g s' 200 2 (ofBytes c7BufB)
                  (Reg.mk 2 0) 16)).bindOk
                (fun s3 => if s3.lockersAt 2 = 0
                  then .ok (s3.modifyScriptAt 2 ScriptData.markDeleted)
                  else .ok s3) := rfl
        rw [hstep, IH.1]
        rfl

theorem c7_s1 : ∀ f : Nat,
    SegManager.uninstantiateScript f (c7State 1 0) 100 = RunResult.noFuel := by
  intro f
  rcases f with _ | (_ | (_ | g))
  · rfl
  · rfl
  · rfl
  · have hstep : SegManager.uninstantiateScript (g + 3) (c7State 1 0) 100
        = ((SegManager.uninstantiateScript g (c7State 0 0) 200).bindOk
            (fun s' => SegManager.uninstWalk g s' 100 1 (ofBytes c7BufA)
              (Reg.mk 1 0) 16)).bindOk
            (fun s3 => if s3.lockersAt 1 = 0
              then .ok (s3.modifyScriptAt 1 ScriptData.markDeleted)
              else .ok s3) := rfl
    rw [hstep, (c7_pair g).2]
    rfl

/-- C7: on the cyclic two-script state (class 0, owned by script 100,
lists class 1 as its superclass, while class 1, owned by script 200, lists
class 0), the superclass walk of uninstantiation recurses through the
cycle without any depth or visited-set guard: no amount of fuel makes the
run of uninstantiateScript terminate — the image of unbounded mutual
recursion — where the spec asks for detection of the cycle and a fatal
data error. -/
theorem C7_superclass_cycle_divergence : ∀ fuel : Nat,
    SegManager.uninstantiateScript fuel (c7State 1 1) 200 = RunResult.noFuel := by
  intro fuel
  rcases fuel with _ | (_ | (_ | g))
  · rfl
  · rfl
  · rfl
  · have hstep : SegManager.uninstantiateScript (g + 3) (c7State 1 1) 200
        = ((SegManager.uninstantiateScript g (c7State 1 0) 100).bindOk
            (fun s' => SegManager.uninstWalk g s' 200 2 (ofBytes c7BufB)
              (Reg.mk 2 0) 16)).bindOk
            (fun s3 => if s3.lockersAt 2 = 0
              then .ok (s3.modifyScriptAt 2 ScriptData.markDeleted)
              else .ok s3) := rfl
    rw [hstep, c7_s1 g]
    rfl

end SciSeg
